import Mathlib

/-!
Verification of the core Tetris engine of `gazure/twotris`.

The definitions below are a shallow embedding of the Rust sources
`src/tetris/components.rs`, `src/tetris/plugin.rs` and the earlier revision
`src/tetris.rs`.  Grids are lists of boolean rows (the Rust type is the
fixed-shape array `[[bool; GRID_WIDTH]; GRID_HEIGHT]`; the fixed shape is
carried as the well-formedness predicate `Grid.WF`).  Rust indexing
expressions `self.grid[y][x]`, which panic when out of bounds, are embedded
as `Option`-valued lookups, so an operation that would panic returns `none`.
Machine integers are embedded as `Nat`; the `u32` score wraps modulo `2^32`.
-/

def GRID_WIDTH : Nat := 10
def GRID_HEIGHT : Nat := 16

/-- The occupancy grid of one board (`struct Grid` in `components.rs`). -/
structure Grid where
  grid : List (List Bool)
deriving DecidableEq, Repr

/-- The fixed shape guaranteed by the Rust array type `[[bool; 10]; 16]`. -/
def Grid.WF (g : Grid) : Prop :=
  g.grid.length = GRID_HEIGHT ∧ ∀ row ∈ g.grid, row.length = GRID_WIDTH

instance (g : Grid) : Decidable g.WF := by
  unfold Grid.WF; infer_instance

/-- `Grid::default()`: the empty grid. -/
def Grid.default : Grid :=
  ⟨List.replicate GRID_HEIGHT (List.replicate GRID_WIDTH false)⟩

/-- The Rust indexing expression `self.grid[y][x]`; `none` models a panic. -/
def Grid.cellIdx (g : Grid) (x y : Nat) : Option Bool :=
  match g.grid[y]? with
  | none => none
  | some row => row[x]?

/-- Total view of a cell, defaulting to `false` out of bounds. -/
def Grid.cell (g : Grid) (x y : Nat) : Bool :=
  (g.cellIdx x y).getD false

/-- `Grid::set`: out-of-range writes are dropped (the source logs and returns). -/
def Grid.set (g : Grid) (x y : Nat) (val : Bool) : Grid :=
  if GRID_WIDTH ≤ x ∨ GRID_HEIGHT ≤ y then g
  else ⟨g.grid.set y ((g.grid[y]?.getD []).set x val)⟩

/-- `Grid::clear`. -/
def Grid.clear (_ : Grid) : Grid := Grid.default

/-- One piece kind (`enum TetrominoType`). -/
inductive TetrominoType
  | I | O | T | S | Z | J | L
deriving DecidableEq, Repr

/-- `TetrominoType::structure_with_rotations`. -/
def structure_with_rotations : TetrominoType → List (List (List Bool))
  | TetrominoType.I =>
      [[[true, true, true, true]],
       [[true], [true], [true], [true]]]
  | TetrominoType.O => [[[true, true], [true, true]]]
  | TetrominoType.T =>
      [[[false, true, false], [true, true, true]],
       [[true, false], [true, true], [true, false]],
       [[true, true, true], [false, true, false]],
       [[false, true], [true, true], [false, true]]]
  | TetrominoType.S =>
      [[[false, true, true], [true, true, false]],
       [[true, false], [true, true], [false, true]]]
  | TetrominoType.Z =>
      [[[true, true, false], [false, true, true]],
       [[false, true], [true, true], [true, false]]]
  | TetrominoType.J =>
      [[[true, false, false], [true, true, true]],
       [[true, true], [true, false], [true, false]],
       [[true, true, true], [false, false, true]],
       [[false, true], [false, true], [true, true]]]
  | TetrominoType.L =>
      [[[false, false, true], [true, true, true]],
       [[true, false], [true, false], [true, true]],
       [[true, true, true], [true, false, false]],
       [[true, true], [false, true], [false, true]]]

/-- `struct ControlledTetromino` (the bevy `Timer` field is external time
state and is not part of the simulation core embedded here). -/
structure ControlledTetromino where
  «structure» : List (List (List Bool))
  rotation : Nat
  top_left : Nat × Nat
deriving DecidableEq, Repr

/-- `ControlledTetromino::new_with_tetromino_type`. -/
def new_with_tetromino_type (ty : TetrominoType) : ControlledTetromino :=
  { «structure» := structure_with_rotations ty
    rotation := 0
    top_left := (GRID_WIDTH / 2 - 1, 0) }

/-- `ControlledTetromino::current_structure` (`self.structure[self.rotation]`;
the rotation index is an invariant kept in range, see the rotation claims). -/
def ControlledTetromino.current_structure (t : ControlledTetromino) : List (List Bool) :=
  (t.«structure»[t.rotation]?).getD []

/-- `ControlledTetromino::rotate`. -/
def ControlledTetromino.rotate (t : ControlledTetromino) : ControlledTetromino :=
  { t with rotation := (t.rotation + 1) % t.«structure».length }

/-! ### Stamping (`Grid::set_tetromino_values`) -/

/-- Inner loop of `set_tetromino_values` over one structure row. -/
def Grid.set_values_cells (tlx tly y : Nat) (val : Bool) :
    Grid → Nat → List Bool → Grid
  | g, _, [] => g
  | g, x, cell :: rest =>
      Grid.set_values_cells tlx tly y val
        (if cell then g.set (tlx + x) (tly + y) val else g) (x + 1) rest

/-- Outer loop of `set_tetromino_values` over the structure rows. -/
def Grid.set_values_rows (tlx tly : Nat) (val : Bool) :
    Grid → Nat → List (List Bool) → Grid
  | g, _, [] => g
  | g, y, row :: rest =>
      Grid.set_values_rows tlx tly val
        (Grid.set_values_cells tlx tly y val g 0 row) (y + 1) rest

/-- `Grid::set_tetromino_values`. -/
def Grid.set_tetromino_values (g : Grid) (t : ControlledTetromino) (val : Bool) : Grid :=
  Grid.set_values_rows t.top_left.fst t.top_left.snd val g 0 t.current_structure

/-- `Grid::set_tetromino`. -/
def Grid.set_tetromino (g : Grid) (t : ControlledTetromino) : Grid :=
  g.set_tetromino_values t true

/-- `Grid::unset_tetromino`. -/
def Grid.unset_tetromino (g : Grid) (t : ControlledTetromino) : Grid :=
  g.set_tetromino_values t false

/-! ### The legality oracle (`Grid::is_tetromino_space_open`, `components.rs`) -/

/-- Inner loop: one structure row.  The guard mirrors
`*cell && (x_oob || y_oob || self.grid[..][..])` with Rust short-circuit
evaluation: the grid is read only for a filled, in-bounds cell. -/
def Grid.space_open_cells (g : Grid) (tlx tly y : Nat) :
    Nat → List Bool → Option Bool
  | _, [] => some true
  | x, cell :: rest =>
      if cell then
        if GRID_WIDTH ≤ tlx + x then some false
        else if GRID_HEIGHT ≤ tly + y then some false
        else do
          let occ ← g.cellIdx (tlx + x) (tly + y)
          if occ then some false
          else g.space_open_cells tlx tly y (x + 1) rest
      else g.space_open_cells tlx tly y (x + 1) rest

/-- Outer loop of `is_tetromino_space_open` over the structure rows. -/
def Grid.space_open_rows (g : Grid) (tlx tly : Nat) :
    Nat → List (List Bool) → Option Bool
  | _, [] => some true
  | y, row :: rest => do
      let ok ← g.space_open_cells tlx tly y 0 row
      if ok then g.space_open_rows tlx tly (y + 1) rest else some false

/-- `Grid::is_tetromino_space_open` (`components.rs` revision). -/
def Grid.is_tetromino_space_open (g : Grid) (t : ControlledTetromino) : Option Bool :=
  g.space_open_rows t.top_left.fst t.top_left.snd 0 t.current_structure

/-! ### The earlier revision (`src/tetris.rs`)

In `tetris.rs` the guard reads
`*cell && x_oob || y_oob || self.grid[..][..]`; `&&` binds tighter than
`||` in Rust, so the `y_oob` and occupancy tests apply to *every* matrix
cell, filled or not, and the grid read is unguarded in `x`. -/

/-- Inner loop of the `tetris.rs` revision of `is_tetromino_space_open`. -/
def Grid.space_open_rs_cells (g : Grid) (tlx tly y : Nat) :
    Nat → List Bool → Option Bool
  | _, [] => some true
  | x, cell :: rest =>
      if cell = true ∧ GRID_WIDTH ≤ tlx + x then some false
      else if GRID_HEIGHT ≤ tly + y then some false
      else do
        let occ ← g.cellIdx (tlx + x) (tly + y)
        if occ then some false
        else g.space_open_rs_cells tlx tly y (x + 1) rest

/-- Outer loop of the `tetris.rs` revision. -/
def Grid.space_open_rs_rows (g : Grid) (tlx tly : Nat) :
    Nat → List (List Bool) → Option Bool
  | _, [] => some true
  | y, row :: rest => do
      let ok ← g.space_open_rs_cells tlx tly y 0 row
      if ok then g.space_open_rs_rows tlx tly (y + 1) rest else some false

/-- `Grid::is_tetromino_space_open`, `src/tetris.rs` revision. -/
def Grid.is_tetromino_space_open_rs (g : Grid) (t : ControlledTetromino) : Option Bool :=
  g.space_open_rs_rows t.top_left.fst t.top_left.snd 0 t.current_structure

/-! ### Sideways blocking (`components.rs`) -/

/-- Index of the first `true` in a row (the Rust
`for (i, v) in row.iter().enumerate() { if *v { .. break } }` scan). -/
def firstFilled : List Bool → Option Nat
  | [] => none
  | cell :: rest => if cell then some 0 else (firstFilled rest).map (· + 1)

/-- The `left` computed per row of `is_tetromino_blocked_left`: the column of
the row's first filled cell shifted by the anchor (the anchor itself when the
row has no filled cell). -/
def rowLeft (tlx : Nat) (row : List Bool) : Nat :=
  match firstFilled row with
  | some i => i + tlx
  | none => tlx

/-- Loop of `Grid::is_tetromino_blocked_left` over the structure rows. -/
def Grid.blocked_left_rows (g : Grid) (tlx tly : Nat) :
    Nat → List (List Bool) → Option Bool
  | _, [] => some false
  | y, row :: rest =>
      let left := rowLeft tlx row
      if left = 0 then some true
      else do
        let occ ← g.cellIdx (left - 1) (tly + y)
        if occ then some true
        else g.blocked_left_rows tlx tly (y + 1) rest

/-- `Grid::is_tetromino_blocked_left` (`components.rs`). -/
def Grid.is_tetromino_blocked_left (g : Grid) (t : ControlledTetromino) : Option Bool :=
  g.blocked_left_rows t.top_left.fst t.top_left.snd 0 t.current_structure

/-- The `right` computed per row of `is_tetromino_blocked_right` before the
anchor shift: the index of the row's last filled cell (`row.len() - 1` when
the row has no filled cell). -/
def rowRight (row : List Bool) : Nat :=
  match firstFilled row.reverse with
  | some i => row.length - 1 - i
  | none => row.length - 1

/-- Loop of `Grid::is_tetromino_blocked_right` over the structure rows. -/
def Grid.blocked_right_rows (g : Grid) (tlx tly : Nat) :
    Nat → List (List Bool) → Option Bool
  | _, [] => some false
  | y, row :: rest =>
      let right := rowRight row + tlx
      if right = GRID_WIDTH - 1 then some true
      else if right < GRID_WIDTH - 1 then do
        let occ ← g.cellIdx (right + 1) (tly + y)
        if occ then some true
        else g.blocked_right_rows tlx tly (y + 1) rest
      else g.blocked_right_rows tlx tly (y + 1) rest

/-- `Grid::is_tetromino_blocked_right` (`components.rs`). -/
def Grid.is_tetromino_blocked_right (g : Grid) (t : ControlledTetromino) : Option Bool :=
  g.blocked_right_rows t.top_left.fst t.top_left.snd 0 t.current_structure

/-! ### Bottom detection (`Grid::is_tetromino_at_bottom`) -/

/-- Inner loop over one structure row; `cols` is the running `checked_cols`
vector.  Returns the blocked flag and the updated `cols`. -/
def Grid.at_bottom_cells (g : Grid) (tlx tly y : Nat) :
    Nat → List Bool → List Nat → Option (Bool × List Nat)
  | _, [], cols => some (false, cols)
  | x, cell :: rest, cols =>
      if cell = true ∧ cols.contains x = false then
        let cols' := cols ++ [x]
        if tly + y = GRID_HEIGHT - 1 then some (true, cols')
        else do
          let occ ← g.cellIdx (tlx + x) (tly + y + 1)
          if occ then some (true, cols')
          else g.at_bottom_cells tlx tly y (x + 1) rest cols'
      else g.at_bottom_cells tlx tly y (x + 1) rest cols

/-- Outer loop over `structure.iter().enumerate().rev()`. -/
def Grid.at_bottom_rows (g : Grid) (tlx tly : Nat) :
    List (Nat × List Bool) → List Nat → Option Bool
  | [], _ => some false
  | (y, row) :: rest, cols => do
      let res ← g.at_bottom_cells tlx tly y 0 row cols
      if res.fst then some true
      else g.at_bottom_rows tlx tly rest res.snd

/-- `Grid::is_tetromino_at_bottom` (`components.rs`). -/
def Grid.is_tetromino_at_bottom (g : Grid) (t : ControlledTetromino) : Option Bool :=
  g.at_bottom_rows t.top_left.fst t.top_left.snd
    t.current_structure.enum.reverse []

/-! ### Row clearing (`Grid::clear_full_grid_rows`) -/

/-- Loop body of `clear_full_grid_rows`: state is
`(new_grid, new_row, cleared_rows)`; rows are fed bottom-to-top. -/
def clearStep (st : List (List Bool) × Nat × Nat) (row : List Bool) :
    List (List Bool) × Nat × Nat :=
  if row.all (fun c => c) then (st.fst, st.snd.fst, st.snd.snd + 1)
  else (st.fst.set st.snd.fst row, st.snd.fst - 1, st.snd.snd)

/-- `Grid::clear_full_grid_rows`, returning the compacted grid and the
cleared-row count (`saturating_sub` on `new_row` is `Nat` subtraction). -/
def Grid.clear_full_grid_rows (g : Grid) : Grid × Nat :=
  let st := g.grid.reverse.foldl clearStep
    (List.replicate GRID_HEIGHT (List.replicate GRID_WIDTH false), GRID_HEIGHT - 1, 0)
  (⟨st.fst⟩, st.snd.snd)

/-! ### Score (`components.rs`) -/

def U32_MOD : Nat := 2 ^ 32

/-- `struct Score(pub u32)`; the value is kept below `2^32`. -/
structure Score where
  val : Nat
deriving DecidableEq, Repr

/-- `Score::get`. -/
def Score.get (s : Score) : Nat := s.val

/-- `Score::reset`. -/
def Score.reset (_ : Score) : Score := ⟨0⟩

/-- `Score::add_cleared_rows`: wrapping `u32` addition of the award table,
returning the new total. -/
def Score.add_cleared_rows (s : Score) (rows : Nat) : Score × Nat :=
  let v := (s.val +
    (match rows with
     | 1 => 40
     | 2 => 100
     | 3 => 300
     | 4 => 1200
     | _ => 0)) % U32_MOD
  (⟨v⟩, v)

/-- The award table of `add_cleared_rows`, named for specification purposes. -/
def clearedRowsAward (rows : Nat) : Nat :=
  match rows with
  | 1 => 40
  | 2 => 100
  | 3 => 300
  | 4 => 1200
  | _ => 0

/-! ### Round controller steps (`plugin.rs`) -/

/-- The per-board round state (`enum TetrisState`). -/
inductive TetrisState
  | InGame
  | GameOver
deriving DecidableEq, Repr

/-- The move-left branch of `handle_input`: gate on
`is_tetromino_blocked_left`, then unstamp, shift the anchor, restamp. -/
def move_left_step (g : Grid) (t : ControlledTetromino) :
    Option (Grid × ControlledTetromino) := do
  let b ← g.is_tetromino_blocked_left t
  if b then some (g, t)
  else
    let g1 := g.unset_tetromino t
    let t1 := { t with top_left := (t.top_left.fst - 1, t.top_left.snd) }
    some (g1.set_tetromino t1, t1)

/-- The move-right branch of `handle_input`. -/
def move_right_step (g : Grid) (t : ControlledTetromino) :
    Option (Grid × ControlledTetromino) := do
  let b ← g.is_tetromino_blocked_right t
  if b then some (g, t)
  else
    let g1 := g.unset_tetromino t
    let t1 := { t with top_left := (t.top_left.fst + 1, t.top_left.snd) }
    some (g1.set_tetromino t1, t1)

/-- The rotate branch of `handle_input`: unstamp, advance the rotation, test
`is_tetromino_space_open`, revert the index on rejection, restamp. -/
def rotate_step (g : Grid) (t : ControlledTetromino) :
    Option (Grid × ControlledTetromino) := do
  let g1 := g.unset_tetromino t
  let t1 := t.rotate
  let o ← g1.is_tetromino_space_open t1
  let t2 := if o then t1 else { t1 with rotation := t.rotation }
  some (g1.set_tetromino t2, t2)

/-- Modelled from the spec: `Grid::force_tetromino_to_bottom` is called by
`handle_timed_movement` in `plugin.rs` but its definition is not among the
sources; per §4.4/§4.5 of the spec the hard drop moves the anchor to the
lowest row at which the footprint stays legal, probing one row lower with the
`is_at_bottom` test.  `fuel` bounds the descent by the grid height. -/
def Grid.force_tetromino_to_bottom (g : Grid) (t : ControlledTetromino) :
    Nat → Option ControlledTetromino
  | 0 => some t
  | fuel + 1 => do
      let b ← g.is_tetromino_at_bottom t
      if b then some t
      else
        Grid.force_tetromino_to_bottom g
          { t with top_left := (t.top_left.fst, t.top_left.snd + 1) } fuel

/-- The hard-drop handling of `handle_timed_movement`: unstamp, force the
piece to the bottom, restamp. -/
def hard_drop_branch (g : Grid) (t : ControlledTetromino) :
    Option (Grid × ControlledTetromino) := do
  let g0 := g.unset_tetromino t
  let t0 ← g0.force_tetromino_to_bottom t GRID_HEIGHT
  some (g0.set_tetromino t0, t0)

/-- The body run when the fall timer fired or a hard drop was forced: either
lock (clear rows, draw `fresh`, spawn it or go to game over) or descend one
row. -/
def lock_or_descend (g1 : Grid) (t1 fresh : ControlledTetromino) :
    Option (Grid × Option ControlledTetromino × TetrisState × Nat) := do
  let b ← g1.is_tetromino_at_bottom t1
  if b then
    let cleared := g1.clear_full_grid_rows
    let g2 := cleared.fst
    do
      let o ← g2.is_tetromino_space_open fresh
      if o then
        some (g2.set_tetromino fresh, some fresh, TetrisState.InGame, cleared.snd)
      else
        some (g2, none, TetrisState.GameOver, cleared.snd)
  else
    let g3 := g1.unset_tetromino t1
    let t3 := { t1 with top_left := (t1.top_left.fst, t1.top_left.snd + 1) }
    some (g3.set_tetromino t3, some t3, TetrisState.InGame, 0)

/-- One `handle_timed_movement` evaluation for one board
(`plugin.rs:178-211`): hard-drop handling, then the
downward-step-or-lock decision when the timer fired or a hard drop was
forced.  `fresh` is the freshly drawn replacement piece (the random draw is
external).  Returns the grid, the surviving active piece, the round state
set for this tick and the cleared-row count reported to the score. -/
def timed_step (g : Grid) (t : ControlledTetromino)
    (timer_finished should_force : Bool) (fresh : ControlledTetromino) :
    Option (Grid × Option ControlledTetromino × TetrisState × Nat) := do
  let gt1 ← if should_force then hard_drop_branch g t else some (g, t)
  if timer_finished || should_force then lock_or_descend gt1.fst gt1.snd fresh
  else some (gt1.fst, some gt1.snd, TetrisState.InGame, 0)

/-! ### Two-board session (`plugin.rs`) -/

/-- One board of the session: its grid and (optional) active piece. -/
structure BoardSt where
  grid : Grid
  piece : Option ControlledTetromino
deriving DecidableEq, Repr

/-- The two-board session; `focus0` holds when board 0 carries the `Focus`
marker component. -/
structure Session where
  b0 : BoardSt
  b1 : BoardSt
  focus0 : Bool
deriving DecidableEq, Repr

/-- The `handle_input` pipeline on one board: the left, right and rotate
branches are evaluated in sequence on the board's active piece. -/
def input_pipeline (left right rot : Bool) (g : Grid) (t : ControlledTetromino) :
    Option (Grid × ControlledTetromino) := do
  let s1 ← if left then move_left_step g t else some (g, t)
  let s2 ← if right then move_right_step s1.fst s1.snd else some s1
  if rot then rotate_step s2.fst s2.snd else some s2

/-- `handle_input` on one board: a no-op when the board has no active piece. -/
def input_board (left right rot : Bool) (b : BoardSt) : Option BoardSt :=
  match b.piece with
  | none => some b
  | some t => do
      let s ← input_pipeline left right rot b.grid t
      some ⟨s.fst, some s.snd⟩

/-- `handle_input` (`plugin.rs:116-165`): the query filters on `With<Focus>`,
so the pipeline runs only on the focused board. -/
def handle_input_session (left right rot : Bool) (s : Session) : Option Session :=
  if s.focus0 then do
    let b ← input_board left right rot s.b0
    some { s with b0 := b }
  else do
    let b ← input_board left right rot s.b1
    some { s with b1 := b }

/-- `handle_timed_movement` on one board; `down_focused` is
`input.just_pressed(ArrowDown) && focus.is_some()` for this board. -/
def timed_board (timer_finished down_focused : Bool) (fresh : ControlledTetromino)
    (b : BoardSt) : Option (BoardSt × TetrisState × Nat) :=
  match b.piece with
  | none => some (b, TetrisState.InGame, 0)
  | some t => do
      let r ← timed_step b.grid t timer_finished down_focused fresh
      some (⟨r.fst, r.snd.fst⟩, r.snd.snd.fst, r.snd.snd.snd)

/-- `handle_timed_movement` (`plugin.rs:167-213`): the grid query has no
focus filter, so the timed evaluation runs on every board; only the
hard-drop trigger consults `Focus`. -/
def handle_timed_session (tf0 tf1 down : Bool)
    (fresh0 fresh1 : ControlledTetromino) (s : Session) :
    Option (Session × (TetrisState × Nat) × (TetrisState × Nat)) := do
  let r0 ← timed_board tf0 (down && s.focus0) fresh0 s.b0
  let r1 ← timed_board tf1 (down && !s.focus0) fresh1 s.b1
  some ({ s with b0 := r0.fst, b1 := r1.fst }, r0.snd, r1.snd)

/-! ## Basic facts about cells, `set` and well-formedness -/

/-- Filled cell of a rotation matrix at local coordinates `(x, y)`. -/
def filled (s : List (List Bool)) (x y : Nat) : Bool :=
  ((s[y]?.getD [])[x]?).getD false

theorem Grid.WF_row {g : Grid} (h : g.WF) {y : Nat} (hy : y < GRID_HEIGHT) :
    ∃ row, g.grid[y]? = some row ∧ row.length = GRID_WIDTH := by
  have hL : g.grid.length = GRID_HEIGHT := h.1
  have hy' : y < g.grid.length := by omega
  exact ⟨g.grid[y], by simp, h.2 _ (List.getElem_mem hy')⟩

theorem Grid.cellIdx_eq {g : Grid} (h : g.WF) {x y : Nat}
    (hx : x < GRID_WIDTH) (hy : y < GRID_HEIGHT) :
    g.cellIdx x y = some (g.cell x y) := by
  obtain ⟨row, hrow, hlen⟩ := Grid.WF_row h hy
  have hx' : x < row.length := by omega
  have hsome : row[x]? = some row[x] := by simp
  simp [Grid.cellIdx, Grid.cell, hrow, hsome]

theorem Grid.cellIdx_isSome_iff {g : Grid} (h : g.WF) {x y : Nat} :
    (g.cellIdx x y).isSome = true ↔ x < GRID_WIDTH ∧ y < GRID_HEIGHT := by
  constructor
  · intro hs
    rcases Nat.lt_or_ge y GRID_HEIGHT with hy | hy
    · rcases Nat.lt_or_ge x GRID_WIDTH with hx | hx
      · exact ⟨hx, hy⟩
      · obtain ⟨row, hrow, hlen⟩ := Grid.WF_row h hy
        have hnone : row[x]? = none := List.getElem?_eq_none (by omega)
        simp [Grid.cellIdx, hrow, hnone] at hs
    · have hL : g.grid.length = GRID_HEIGHT := h.1
      have hnone : g.grid[y]? = none := List.getElem?_eq_none (by omega)
      simp [Grid.cellIdx, hnone] at hs
  · rintro ⟨hx, hy⟩
    rw [Grid.cellIdx_eq h hx hy]; rfl

theorem Grid.cellIdx_none {g : Grid} (h : g.WF) {x y : Nat}
    (hxy : GRID_WIDTH ≤ x ∨ GRID_HEIGHT ≤ y) : g.cellIdx x y = none := by
  rw [← Option.not_isSome_iff_eq_none]
  intro hs
  rw [Grid.cellIdx_isSome_iff h] at hs
  omega

theorem Grid.set_WF {g : Grid} (h : g.WF) (x y : Nat) (v : Bool) :
    (g.set x y v).WF := by
  unfold Grid.set
  split
  · exact h
  · rename_i hb
    push_neg at hb
    obtain ⟨hx, hy⟩ := hb
    obtain ⟨row, hrow, hlen⟩ := Grid.WF_row h hy
    constructor
    · simpa using h.1
    · intro r hr
      rcases List.mem_or_eq_of_mem_set hr with hmem | rfl
      · exact h.2 r hmem
      · simpa [hrow] using hlen

theorem Grid.cell_set {g : Grid} (h : g.WF) (x y : Nat) (v : Bool) (x' y' : Nat) :
    (g.set x y v).cell x' y' =
      if x = x' ∧ y = y' ∧ x < GRID_WIDTH ∧ y < GRID_HEIGHT then v
      else g.cell x' y' := by
  have hL : g.grid.length = GRID_HEIGHT := h.1
  unfold Grid.set
  split
  · rename_i hb
    rw [if_neg]
    rintro ⟨rfl, rfl, hx, hy⟩
    rcases hb with hb | hb <;> omega
  · rename_i hb
    push_neg at hb
    obtain ⟨hx, hy⟩ := hb
    obtain ⟨row, hrow, hlen⟩ := Grid.WF_row h hy
    have hrowD : g.grid[y]?.getD [] = row := by rw [hrow]; rfl
    rw [hrowD]
    by_cases hyy : y = y'
    · subst hyy
      have h1 : (g.grid.set y (row.set x v))[y]? = some (row.set x v) :=
        List.getElem?_set_self (by omega)
      by_cases hxx : x = x'
      · subst hxx
        have h2 : (row.set x v)[x]? = some v := List.getElem?_set_self (by omega)
        simp [Grid.cell, Grid.cellIdx, h1, h2, hx, hy]
      · have h2 : (row.set x v)[x']? = row[x']? := List.getElem?_set_ne hxx
        simp [Grid.cell, Grid.cellIdx, h1, h2, hrow, hxx]
    · have h1 : (g.grid.set y (row.set x v))[y']? = g.grid[y']? :=
        List.getElem?_set_ne hyy
      simp [Grid.cell, Grid.cellIdx, h1, hyy]

/-- Two well-formed grids with the same cells are equal. -/
theorem Grid.ext_cells {g g' : Grid} (hg : g.WF) (hg' : g'.WF)
    (h : ∀ x y, x < GRID_WIDTH → y < GRID_HEIGHT → g.cell x y = g'.cell x y) :
    g = g' := by
  have hIdx : ∀ x y, g.cellIdx x y = g'.cellIdx x y := by
    intro x y
    by_cases hxy : x < GRID_WIDTH ∧ y < GRID_HEIGHT
    · rw [Grid.cellIdx_eq hg hxy.1 hxy.2, Grid.cellIdx_eq hg' hxy.1 hxy.2,
        h x y hxy.1 hxy.2]
    · have hxy' : GRID_WIDTH ≤ x ∨ GRID_HEIGHT ≤ y := by omega
      rw [Grid.cellIdx_none hg hxy', Grid.cellIdx_none hg' hxy']
  have hL : g.grid.length = GRID_HEIGHT := hg.1
  have hL' : g'.grid.length = GRID_HEIGHT := hg'.1
  obtain ⟨rows⟩ := g
  obtain ⟨rows'⟩ := g'
  simp only at hL hL' hIdx
  congr 1
  apply List.ext_getElem?
  intro y
  rcases Nat.lt_or_ge y GRID_HEIGHT with hy | hy
  · obtain ⟨row, hrow, hlen⟩ := Grid.WF_row hg hy
    obtain ⟨row', hrow', hlen'⟩ := Grid.WF_row hg' hy
    simp only at hrow hrow'
    have hrowE : row = row' := by
      apply List.ext_getElem?
      intro x
      have hi := hIdx x y
      simpa only [Grid.cellIdx, hrow, hrow'] using hi
    rw [hrow, hrow', hrowE]
  · rw [List.getElem?_eq_none (by omega), List.getElem?_eq_none (by omega)]

/-! ## Characterization of `is_tetromino_space_open` (components revision) -/

/-- The spec-side reading of the legality oracle: every filled cell of the
current rotation matrix, translated by the anchor, is inside the board and
lands on an unoccupied cell. -/
def OpenSpec (g : Grid) (t : ControlledTetromino) : Prop :=
  ∀ x y, filled t.current_structure x y = true →
    t.top_left.fst + x < GRID_WIDTH ∧ t.top_left.snd + y < GRID_HEIGHT ∧
    g.cell (t.top_left.fst + x) (t.top_left.snd + y) = false

theorem space_open_cells_spec {g : Grid} (h : g.WF) (tlx tly y : Nat) :
    ∀ (row : List Bool) (x : Nat),
      ∃ b, g.space_open_cells tlx tly y x row = some b ∧
        (b = true ↔ ∀ i, row[i]?.getD false = true →
          tlx + (x + i) < GRID_WIDTH ∧ tly + y < GRID_HEIGHT ∧
          g.cell (tlx + (x + i)) (tly + y) = false) := by
  intro row
  induction row with
  | nil =>
      intro x
      exact ⟨true, rfl, by simp⟩
  | cons cell rest ih =>
      intro x
      by_cases hc : cell = true
      · subst hc
        by_cases hW : GRID_WIDTH ≤ tlx + x
        · refine ⟨false, by simp [Grid.space_open_cells, hW], ?_⟩
          simp only [Bool.false_eq_true, false_iff]
          intro hspec
          obtain ⟨h1, _, _⟩ := hspec 0 (by simp)
          omega
        · by_cases hH : GRID_HEIGHT ≤ tly + y
          · refine ⟨false, by simp [Grid.space_open_cells, hW, hH], ?_⟩
            simp only [Bool.false_eq_true, false_iff]
            intro hspec
            obtain ⟨_, h2, _⟩ := hspec 0 (by simp)
            omega
          · have hidx := Grid.cellIdx_eq h (x := tlx + x) (y := tly + y)
              (by omega) (by omega)
            by_cases hocc : g.cell (tlx + x) (tly + y) = true
            · refine ⟨false, ?_, ?_⟩
              · simp [Grid.space_open_cells, hW, hH, hidx, hocc]
              · simp only [Bool.false_eq_true, false_iff]
                intro hspec
                obtain ⟨_, _, h3⟩ := hspec 0 (by simp)
                simp only [Nat.add_zero] at h3
                rw [h3] at hocc
                simp at hocc
            · obtain ⟨b, hb, hiff⟩ := ih (x + 1)
              refine ⟨b, ?_, ?_⟩
              · simp only [Grid.space_open_cells, if_pos rfl, if_neg hW, if_neg hH,
                  hidx, Option.bind_eq_bind, Option.some_bind]
                simp only [Bool.not_eq_true] at hocc
                simp [hocc, hb]
              · rw [hiff]
                constructor
                · intro hrest i hi
                  match i with
                  | 0 =>
                      refine ⟨by omega, by omega, ?_⟩
                      simpa using hocc
                  | i + 1 =>
                      have := hrest i (by simpa using hi)
                      constructor
                      · omega
                      · constructor
                        · omega
                        · have heq : tlx + (x + 1 + i) = tlx + (x + (i + 1)) := by omega
                          rw [heq] at this
                          exact this.2.2
                · intro hall i hi
                  have := hall (i + 1) (by simpa using hi)
                  constructor
                  · omega
                  · constructor
                    · omega
                    · have heq : tlx + (x + (i + 1)) = tlx + (x + 1 + i) := by omega
                      rw [← heq]
                      exact this.2.2
      · have hcf : cell = false := by simpa using hc
        subst hcf
        obtain ⟨b, hb, hiff⟩ := ih (x + 1)
        refine ⟨b, by simp [Grid.space_open_cells, hb], ?_⟩
        rw [hiff]
        constructor
        · intro hrest i hi
          match i with
          | 0 => simp at hi
          | i + 1 =>
              have := hrest i (by simpa using hi)
              refine ⟨by omega, by omega, ?_⟩
              have heq : tlx + (x + 1 + i) = tlx + (x + (i + 1)) := by omega
              rw [heq] at this
              exact this.2.2
        · intro hall i hi
          have := hall (i + 1) (by simpa using hi)
          refine ⟨by omega, by omega, ?_⟩
          have heq : tlx + (x + (i + 1)) = tlx + (x + 1 + i) := by omega
          rw [← heq]
          exact this.2.2

theorem space_open_rows_spec {g : Grid} (h : g.WF) (tlx tly : Nat) :
    ∀ (rows : List (List Bool)) (y : Nat),
      ∃ b, g.space_open_rows tlx tly y rows = some b ∧
        (b = true ↔ ∀ j row, rows[j]? = some row →
          ∀ i, row[i]?.getD false = true →
            tlx + i < GRID_WIDTH ∧ tly + (y + j) < GRID_HEIGHT ∧
            g.cell (tlx + i) (tly + (y + j)) = false) := by
  intro rows
  induction rows with
  | nil =>
      intro y
      exact ⟨true, rfl, by simp⟩
  | cons row rest ih =>
      intro y
      obtain ⟨b0, hb0, hiff0⟩ := space_open_cells_spec h tlx tly y row 0
      by_cases hb : b0 = true
      · subst hb
        obtain ⟨b, hb, hiff⟩ := ih (y + 1)
        refine ⟨b, ?_, ?_⟩
        · simp [Grid.space_open_rows, hb0, hb]
        · rw [hiff]
          constructor
          · intro hrest j rowj hj i hi
            match j with
            | 0 =>
                simp only [List.getElem?_cons_zero, Option.some.injEq] at hj
                subst hj
                have := hiff0.mp rfl i (by simpa using hi)
                refine ⟨by omega, by omega, ?_⟩
                have heq : tlx + (0 + i) = tlx + i := by omega
                rw [heq] at this
                simpa using this.2.2
            | j + 1 =>
                have := hrest j rowj (by simpa using hj) i hi
                refine ⟨this.1, by omega, ?_⟩
                have heq : tly + (y + 1 + j) = tly + (y + (j + 1)) := by omega
                rw [heq] at this
                exact this.2.2
          · intro hall j rowj hj i hi
            have := hall (j + 1) rowj (by simpa using hj) i hi
            refine ⟨this.1, by omega, ?_⟩
            have heq : tly + (y + (j + 1)) = tly + (y + 1 + j) := by omega
            rw [← heq]
            exact this.2.2
      · have hbf : b0 = false := by simpa using hb
        subst hbf
        refine ⟨false, by simp [Grid.space_open_rows, hb0], ?_⟩
        simp only [Bool.false_eq_true, false_iff]
        intro hall
        apply hb
        rw [hiff0]
        intro i hi
        have := hall 0 row (by simp) i hi
        refine ⟨by simpa using this.1, by omega, ?_⟩
        have e1 : tlx + (0 + i) = tlx + i := by omega
        have e2 : tly + y = tly + (y + 0) := by omega
        rw [e1, e2]
        exact this.2.2

theorem is_tetromino_space_open_isSome {g : Grid} (h : g.WF) (t : ControlledTetromino) :
    (g.is_tetromino_space_open t).isSome = true := by
  obtain ⟨b, hb, _⟩ :=
    space_open_rows_spec h t.top_left.fst t.top_left.snd t.current_structure 0
  rw [Grid.is_tetromino_space_open, hb]; rfl

theorem is_tetromino_space_open_iff {g : Grid} (h : g.WF) (t : ControlledTetromino) :
    g.is_tetromino_space_open t = some true ↔ OpenSpec g t := by
  obtain ⟨b, hb, hiff⟩ :=
    space_open_rows_spec h t.top_left.fst t.top_left.snd t.current_structure 0
  rw [Grid.is_tetromino_space_open, hb]
  constructor
  · intro he
    have hbt : b = true := by simpa using he
    intro x y hf
    rcases hsy : t.current_structure[y]? with _ | row
    · rw [filled, hsy] at hf
      simp at hf
    · rw [filled, hsy] at hf
      have := (hiff.mp hbt) y row hsy x (by simpa using hf)
      refine ⟨this.1, by omega, ?_⟩
      have e : t.top_left.snd + y = t.top_left.snd + (0 + y) := by omega
      rw [e]
      exact this.2.2
  · intro hs
    have hbt : b = true := by
      rw [hiff]
      intro j row hj i hi
      have := hs i j (by rw [filled, hj]; simpa using hi)
      refine ⟨this.1, by omega, ?_⟩
      have e : t.top_left.snd + (0 + j) = t.top_left.snd + j := by omega
      rw [e]
      exact this.2.2
    rw [hbt]

theorem is_tetromino_space_open_false_iff {g : Grid} (h : g.WF) (t : ControlledTetromino) :
    g.is_tetromino_space_open t = some false ↔ ¬ OpenSpec g t := by
  have hs := is_tetromino_space_open_isSome h t
  have hiff := is_tetromino_space_open_iff h t
  rcases ho : g.is_tetromino_space_open t with _ | b
  · rw [ho] at hs; simp at hs
  · rw [ho] at hiff
    cases b
    · simp only [Option.some.injEq]
      constructor
      · intro _ hc
        have := hiff.mpr hc
        simp at this
      · intro _; trivial
    · simp only [Option.some.injEq]
      constructor
      · intro hc; simp at hc
      · intro hc
        exact absurd (hiff.mp rfl) hc

/-! ## Claim C1 -/

/-- C1: for every grid and every controlled tetromino,
`is_tetromino_space_open` (components.rs) returns a value, and returns
`true` exactly when every filled cell of the piece's current rotation
matrix, translated by its anchor `top_left`, has column < 10 and row < 16
and the corresponding grid cell is unoccupied. -/
theorem C1_space_open_correct (g : Grid) (t : ControlledTetromino) (h : g.WF) :
    (g.is_tetromino_space_open t).isSome = true ∧
    (g.is_tetromino_space_open t = some true ↔
      ∀ x y, filled t.current_structure x y = true →
        t.top_left.fst + x < GRID_WIDTH ∧ t.top_left.snd + y < GRID_HEIGHT ∧
        g.cell (t.top_left.fst + x) (t.top_left.snd + y) = false) :=
  ⟨is_tetromino_space_open_isSome h t, is_tetromino_space_open_iff h t⟩

/-- Witness for C1 at a concrete grid and piece. -/
theorem C1_space_open_correct_witness :
    Grid.default.WF ∧
    ((Grid.default.is_tetromino_space_open (new_with_tetromino_type TetrominoType.O)).isSome = true ∧
     (Grid.default.is_tetromino_space_open (new_with_tetromino_type TetrominoType.O) = some true ↔
       ∀ x y, filled (new_with_tetromino_type TetrominoType.O).current_structure x y = true →
         (new_with_tetromino_type TetrominoType.O).top_left.fst + x < GRID_WIDTH ∧
         (new_with_tetromino_type TetrominoType.O).top_left.snd + y < GRID_HEIGHT ∧
         Grid.default.cell ((new_with_tetromino_type TetrominoType.O).top_left.fst + x)
           ((new_with_tetromino_type TetrominoType.O).top_left.snd + y) = false)) :=
  ⟨by decide, C1_space_open_correct Grid.default (new_with_tetromino_type TetrominoType.O) (by decide)⟩

/-! ## Claim C10: the two revisions of the legality oracle -/

theorem space_open_rs_cells_imp {g : Grid} (tlx tly y : Nat) :
    ∀ (row : List Bool) (x : Nat),
      g.space_open_rs_cells tlx tly y x row = some true →
      g.space_open_cells tlx tly y x row = some true := by
  intro row
  induction row with
  | nil => intro x _; rfl
  | cons cell rest ih =>
      intro x hrs
      rw [Grid.space_open_rs_cells] at hrs
      by_cases hA : cell = true ∧ GRID_WIDTH ≤ tlx + x
      · rw [if_pos hA] at hrs; simp at hrs
      · rw [if_neg hA] at hrs
        by_cases hB : GRID_HEIGHT ≤ tly + y
        · rw [if_pos hB] at hrs; simp at hrs
        · rw [if_neg hB] at hrs
          rcases hidx : g.cellIdx (tlx + x) (tly + y) with _ | occ
          · rw [hidx] at hrs; simp at hrs
          · rw [hidx] at hrs
            simp only [Option.bind_eq_bind, Option.some_bind] at hrs
            rcases occ with _ | _
            · simp only [Bool.false_eq_true, if_neg] at hrs
              have hrec := ih (x + 1) (by simpa using hrs)
              rw [Grid.space_open_cells]
              by_cases hc : cell = true
              · subst hc
                have hW : ¬ GRID_WIDTH ≤ tlx + x := fun hw => hA ⟨rfl, hw⟩
                rw [if_pos rfl, if_neg hW, if_neg hB, hidx]
                simpa using hrec
              · have hcf : cell = false := by simpa using hc
                subst hcf
                simpa using hrec
            · simp at hrs
  
theorem space_open_rs_rows_imp {g : Grid} (tlx tly : Nat) :
    ∀ (rows : List (List Bool)) (y : Nat),
      g.space_open_rs_rows tlx tly y rows = some true →
      g.space_open_rows tlx tly y rows = some true := by
  intro rows
  induction rows with
  | nil => intro y _; rfl
  | cons row rest ih =>
      intro y hrs
      rw [Grid.space_open_rs_rows] at hrs
      rcases hcells : g.space_open_rs_cells tlx tly y 0 row with _ | ok
      · rw [hcells] at hrs; simp at hrs
      · rw [hcells] at hrs
        simp only [Option.bind_eq_bind, Option.some_bind] at hrs
        rcases ok with _ | _
        · simp at hrs
        · have h1 := space_open_rs_cells_imp tlx tly y row 0 hcells
          have h2 := ih (y + 1) (by simpa using hrs)
          rw [Grid.space_open_rows, h1]
          simpa using h2

/-- C10 (counterexample): the two source revisions of the space-open check
disagree.  With the grid cell `(0, 0)` occupied and a `T` piece (rotation 0,
anchor `(0, 0)`) whose matrix has an *unfilled* top-left cell, the
`components.rs` revision reports the space open while the `tetris.rs`
revision reports it closed, because in `tetris.rs` the occupancy test also
applies to unfilled matrix cells. -/
theorem C10_counterexample :
    ¬ ((Grid.default.set 0 0 true).is_tetromino_space_open_rs
        ⟨structure_with_rotations TetrominoType.T, 0, (0, 0)⟩ =
       (Grid.default.set 0 0 true).is_tetromino_space_open
        ⟨structure_with_rotations TetrominoType.T, 0, (0, 0)⟩) := by
  decide

/-- C10 (amended): whenever the `tetris.rs` revision of
`is_tetromino_space_open` reports the space open, the `components.rs`
revision reports it open as well; the converse fails (see the
counterexample). -/
theorem C10_rs_implies_components (g : Grid) (t : ControlledTetromino) :
    g.is_tetromino_space_open_rs t = some true →
    g.is_tetromino_space_open t = some true :=
  fun h => space_open_rs_rows_imp t.top_left.fst t.top_left.snd t.current_structure 0 h

/-! ## Closed form of `clear_full_grid_rows` -/

/-- The all-unoccupied row. -/
def emptyRow : List Bool := List.replicate GRID_WIDTH false

/-- The rows of `g` that are not full, in top-to-bottom order. -/
def keptRows (g : Grid) : List (List Bool) :=
  g.grid.filter (fun row => ! row.all (fun c => c))

theorem set_replicate_append (a b : List Bool) :
    ∀ (n : Nat) (l : List (List Bool)),
      (List.replicate (n + 1) a ++ l).set n b = List.replicate n a ++ b :: l := by
  intro n
  induction n with
  | zero => intro l; simp
  | succ n ih =>
      intro l
      rw [List.replicate_succ (n := n + 1), List.cons_append, List.set_cons_succ, ih,
        List.replicate_succ (n := n), List.cons_append]

theorem clear_foldr_eq :
    ∀ (rows : List (List Bool)), rows.length ≤ GRID_HEIGHT →
      rows.foldr (fun row st => clearStep st row)
        (List.replicate GRID_HEIGHT (List.replicate GRID_WIDTH false), GRID_HEIGHT - 1, 0) =
      (List.replicate (GRID_HEIGHT - (rows.filter (fun row => ! row.all (fun c => c))).length)
          (List.replicate GRID_WIDTH false) ++
          rows.filter (fun row => ! row.all (fun c => c)),
       GRID_HEIGHT - 1 - (rows.filter (fun row => ! row.all (fun c => c))).length,
       rows.length - (rows.filter (fun row => ! row.all (fun c => c))).length) := by
  intro rows
  induction rows with
  | nil => intro _; simp
  | cons row rest ih =>
      intro hlen
      have hrest : rest.length ≤ GRID_HEIGHT := by
        simp only [List.length_cons] at hlen; omega
      have hk : (rest.filter (fun row => ! row.all (fun c => c))).length ≤ rest.length :=
        List.length_filter_le _ _
      have hGH : GRID_HEIGHT = 16 := rfl
      rw [List.foldr_cons, ih hrest]
      by_cases hfull : row.all (fun c => c) = true
      · have hfilter : (row :: rest).filter (fun r => ! r.all (fun c => c)) =
            rest.filter (fun r => ! r.all (fun c => c)) := by
          simp [List.filter_cons, hfull]
        rw [hfilter]
        simp only [clearStep, hfull, if_pos]
        refine congrArg _ ?_
        refine congrArg _ ?_
        simp only [List.length_cons] at hlen ⊢
        omega
      · have hfilter : (row :: rest).filter (fun r => ! r.all (fun c => c)) =
            row :: rest.filter (fun r => ! r.all (fun c => c)) := by
          simp [List.filter_cons, hfull]
        rw [hfilter]
        have hkle : (rest.filter (fun r => ! r.all (fun c => c))).length ≤ GRID_HEIGHT - 1 := by
          simp only [List.length_cons] at hlen; omega
        simp only [clearStep, hfull, if_neg, Bool.false_eq_true, if_false]
        have hrepl : GRID_HEIGHT - (rest.filter (fun r => ! r.all (fun c => c))).length =
            (GRID_HEIGHT - 1 - (rest.filter (fun r => ! r.all (fun c => c))).length) + 1 := by
          omega
        rw [hrepl, set_replicate_append]
        have h1 : GRID_HEIGHT - 1 - (rest.filter (fun r => ! r.all (fun c => c))).length =
            GRID_HEIGHT - (row :: rest.filter (fun r => ! r.all (fun c => c))).length := by
          simp only [List.length_cons]; omega
        rw [h1]
        simp only [List.length_cons, Prod.mk.injEq]
        exact ⟨trivial, by omega, by omega⟩

theorem clear_full_grid_rows_eq {g : Grid} (h : g.WF) :
    g.clear_full_grid_rows =
      (⟨List.replicate (GRID_HEIGHT - (keptRows g).length) emptyRow ++ keptRows g⟩,
       GRID_HEIGHT - (keptRows g).length) := by
  have hlen : g.grid.length ≤ GRID_HEIGHT := by rw [h.1]
  unfold Grid.clear_full_grid_rows
  rw [List.foldl_reverse, clear_foldr_eq g.grid hlen]
  have hL : g.grid.length = GRID_HEIGHT := h.1
  simp only [keptRows, emptyRow]
  rw [hL]

theorem clear_full_grid_rows_WF {g : Grid} (h : g.WF) :
    (g.clear_full_grid_rows).fst.WF := by
  rw [clear_full_grid_rows_eq h]
  have hk : (keptRows g).length ≤ GRID_HEIGHT := by
    have := List.length_filter_le (fun row => ! row.all (fun c => c)) g.grid
    rw [h.1] at this
    exact this
  constructor
  · simp only [List.length_append, List.length_replicate]
    omega
  · intro row hrow
    rcases List.mem_append.mp hrow with hmem | hmem
    · rw [List.eq_of_mem_replicate hmem]
      simp [emptyRow]
    · exact h.2 row (List.mem_of_mem_filter hmem)

/-! ## Claim C3 -/

/-- C3: `clear_full_grid_rows` removes every full row, shifts the remaining
rows down preserving their order, fills the rows above with unoccupied
cells, and returns the number of removed rows; in particular, when exactly
the bottom row is full, it returns 1 and shifts every other row down by
one. -/
theorem C3_clear_full_grid_rows_correct (g : Grid) (h : g.WF) :
    (g.clear_full_grid_rows).fst.grid =
      List.replicate (GRID_HEIGHT - (keptRows g).length) emptyRow ++ keptRows g ∧
    (g.clear_full_grid_rows).snd = g.grid.countP (fun row => row.all (fun c => c)) ∧
    ((∀ row ∈ g.grid.dropLast, ¬ row.all (fun c => c) = true) →
      (g.grid.getLast?.map (fun row => row.all (fun c => c))) = some true →
      (g.clear_full_grid_rows).snd = 1 ∧
      (g.clear_full_grid_rows).fst.grid = emptyRow :: g.grid.dropLast) := by
  have hL : g.grid.length = GRID_HEIGHT := h.1
  have hcount : GRID_HEIGHT - (keptRows g).length =
      g.grid.countP (fun row => row.all (fun c => c)) := by
    have hsplit := List.length_eq_countP_add_countP
      (p := fun row => row.all (fun c => c)) (l := g.grid)
    have hkept : (keptRows g).length =
        g.grid.countP (fun row => ! row.all (fun c => c)) := by
      simp [keptRows, List.countP_eq_length_filter]
    have : g.grid.countP (fun a => ¬ (a.all (fun c => c)) = true) =
        g.grid.countP (fun row => ! row.all (fun c => c)) := by
      apply List.countP_congr
      intro a _
      simp
    rw [this] at hsplit
    omega
  refine ⟨by rw [clear_full_grid_rows_eq h], by rw [clear_full_grid_rows_eq h, hcount], ?_⟩
  intro hothers hlast
  have hGH : GRID_HEIGHT = 16 := rfl
  have hne : g.grid ≠ [] := by
    intro he
    rw [he] at hlast
    simp at hlast
  have hlast' : (g.grid.getLast hne).all (fun c => c) = true := by
    rw [List.getLast?_eq_getLast _ hne] at hlast
    simpa using hlast
  have hdecomp : g.grid.dropLast ++ [g.grid.getLast hne] = g.grid :=
    List.dropLast_concat_getLast hne
  have hkept : keptRows g = g.grid.dropLast := by
    unfold keptRows
    rw [← hdecomp, List.filter_append]
    have h1 : g.grid.dropLast.filter (fun row => ! row.all (fun c => c)) = g.grid.dropLast := by
      rw [List.filter_eq_self]
      intro a ha
      simpa using hothers a ha
    have h2 : [g.grid.getLast hne].filter (fun row => ! row.all (fun c => c)) = [] := by
      simp [List.filter_cons, hlast']
    rw [h1, h2, List.append_nil, List.dropLast_concat]
  have hdllen : g.grid.dropLast.length = GRID_HEIGHT - 1 := by
    rw [List.length_dropLast, hL]
  constructor
  · rw [clear_full_grid_rows_eq h]
    simp only [hkept, hdllen]
    omega
  · rw [clear_full_grid_rows_eq h]
    simp only [hkept, hdllen]
    have : GRID_HEIGHT - (GRID_HEIGHT - 1) = 1 := by omega
    rw [this]
    simp

/-- Witness for C3: a grid whose bottom row is full and whose upper rows are
not; the clear reports exactly one row and shifts the rest down. -/
theorem C3_clear_full_grid_rows_correct_witness :
    (Grid.mk (List.replicate 14 (List.replicate 10 false) ++
        [true :: List.replicate 9 false, List.replicate 10 true])).WF ∧
    ((Grid.mk (List.replicate 14 (List.replicate 10 false) ++
        [true :: List.replicate 9 false, List.replicate 10 true])).clear_full_grid_rows.fst.grid =
      List.replicate (GRID_HEIGHT - (keptRows (Grid.mk (List.replicate 14 (List.replicate 10 false) ++
        [true :: List.replicate 9 false, List.replicate 10 true]))).length) emptyRow ++
        keptRows (Grid.mk (List.replicate 14 (List.replicate 10 false) ++
        [true :: List.replicate 9 false, List.replicate 10 true])) ∧
     (Grid.mk (List.replicate 14 (List.replicate 10 false) ++
        [true :: List.replicate 9 false, List.replicate 10 true])).clear_full_grid_rows.snd =
      (Grid.mk (List.replicate 14 (List.replicate 10 false) ++
        [true :: List.replicate 9 false, List.replicate 10 true])).grid.countP
          (fun row => row.all (fun c => c)) ∧
     ((∀ row ∈ (Grid.mk (List.replicate 14 (List.replicate 10 false) ++
        [true :: List.replicate 9 false, List.replicate 10 true])).grid.dropLast,
          ¬ row.all (fun c => c) = true) →
      ((Grid.mk (List.replicate 14 (List.replicate 10 false) ++
        [true :: List.replicate 9 false, List.replicate 10 true])).grid.getLast?.map
          (fun row => row.all (fun c => c))) = some true →
      (Grid.mk (List.replicate 14 (List.replicate 10 false) ++
        [true :: List.replicate 9 false, List.replicate 10 true])).clear_full_grid_rows.snd = 1 ∧
      (Grid.mk (List.replicate 14 (List.replicate 10 false) ++
        [true :: List.replicate 9 false, List.replicate 10 true])).clear_full_grid_rows.fst.grid =
        emptyRow :: (Grid.mk (List.replicate 14 (List.replicate 10 false) ++
        [true :: List.replicate 9 false, List.replicate 10 true])).grid.dropLast)) :=
  ⟨by decide, C3_clear_full_grid_rows_correct _ (by decide)⟩

/-! ## Claim C8 -/

/-- C8: compaction is idempotent — a second `clear_full_grid_rows` with no
intervening mutation removes nothing and leaves the grid unchanged. -/
theorem C8_clear_full_grid_rows_idempotent (g : Grid) (h : g.WF) :
    ((g.clear_full_grid_rows).fst).clear_full_grid_rows =
      ((g.clear_full_grid_rows).fst, 0) := by
  have hWF := clear_full_grid_rows_WF h
  rw [clear_full_grid_rows_eq hWF]
  have hself : keptRows (g.clear_full_grid_rows).fst = (g.clear_full_grid_rows).fst.grid := by
    unfold keptRows
    rw [List.filter_eq_self]
    intro row hrow
    rw [clear_full_grid_rows_eq h] at hrow
    simp only at hrow
    rcases List.mem_append.mp hrow with hmem | hmem
    · rw [List.eq_of_mem_replicate hmem]
      decide
    · have := List.of_mem_filter hmem
      simpa using this
  rw [hself]
  have hlen : (g.clear_full_grid_rows).fst.grid.length = GRID_HEIGHT := hWF.1
  rw [hlen]
  simp

/-! ## Claim C4: the score table -/

theorem Score.add_cleared_rows_eq (s : Score) (n : Nat) :
    Score.add_cleared_rows s n =
      (⟨(s.val + clearedRowsAward n) % U32_MOD⟩, (s.val + clearedRowsAward n) % U32_MOD) := rfl

theorem clearedRowsAward_le (n : Nat) : clearedRowsAward n ≤ 1200 := by
  unfold clearedRowsAward
  split <;> omega

theorem clearedRowsAward_eq_zero {n : Nat} (h : 4 < n) : clearedRowsAward n = 0 := by
  unfold clearedRowsAward
  split <;> omega

theorem score_foldl_eq (ns : List Nat) :
    ∀ s : Nat, s + 1200 * ns.length < U32_MOD →
      (List.foldl (fun sc n => (Score.add_cleared_rows sc n).fst) ⟨s⟩ ns).val =
        s + (ns.map clearedRowsAward).sum := by
  induction ns with
  | nil => intro s _; simp
  | cons n rest ih =>
      intro s h
      have hle := clearedRowsAward_le n
      have hlt : s + clearedRowsAward n + 1200 * rest.length < U32_MOD := by
        simp only [List.length_cons] at h
        omega
      have hmod : (s + clearedRowsAward n) % U32_MOD = s + clearedRowsAward n :=
        Nat.mod_eq_of_lt (by omega)
      rw [List.foldl_cons, Score.add_cleared_rows_eq]
      simp only [hmod]
      rw [ih (s + clearedRowsAward n) hlt]
      simp only [List.map_cons, List.sum_cons]
      omega

/-- C4 (counterexample): with the representable starting total
`2^32 - 1 = 4294967295`, clearing one row *decreases* the `u32` total (it
wraps to 39 rather than increasing by 40), so the claim fails as stated
for every starting total. -/
theorem C4_counterexample :
    (Score.add_cleared_rows ⟨4294967295⟩ 1).snd < 4294967295 := by decide

/-- C4 (amended): `add_cleared_rows` awards exactly the table
`{0:0, 1:40, 2:100, 3:300, 4:1200, n>4:0}` and returns the new total, and —
provided the `u32` total never overflows (the additions stay below `2^32`) —
the total never decreases under any sequence of calls and becomes zero only
when it started at zero with zero awards; `reset` sets it to zero. -/
theorem C4_add_cleared_rows_amended (s : Nat) (ns : List Nat)
    (h : s + 1200 * ns.length < U32_MOD) :
    (∀ n, (Score.add_cleared_rows ⟨s⟩ n).snd = (Score.add_cleared_rows ⟨s⟩ n).fst.val) ∧
    (∀ n, s + clearedRowsAward n < U32_MOD →
      (Score.add_cleared_rows ⟨s⟩ n).fst.val = s + clearedRowsAward n) ∧
    clearedRowsAward 0 = 0 ∧ clearedRowsAward 1 = 40 ∧ clearedRowsAward 2 = 100 ∧
    clearedRowsAward 3 = 300 ∧ clearedRowsAward 4 = 1200 ∧
    (∀ n, 4 < n → clearedRowsAward n = 0) ∧
    (List.foldl (fun sc n => (Score.add_cleared_rows sc n).fst) ⟨s⟩ ns).val =
      s + (ns.map clearedRowsAward).sum ∧
    s ≤ (List.foldl (fun sc n => (Score.add_cleared_rows sc n).fst) ⟨s⟩ ns).val ∧
    ((List.foldl (fun sc n => (Score.add_cleared_rows sc n).fst) ⟨s⟩ ns).val = 0 →
      s = 0 ∧ (ns.map clearedRowsAward).sum = 0) ∧
    (Score.reset ⟨s⟩).val = 0 := by
  have hfold := score_foldl_eq ns s h
  refine ⟨fun n => rfl, ?_, rfl, rfl, rfl, rfl, rfl, fun n hn => clearedRowsAward_eq_zero hn,
    hfold, by omega, by omega, rfl⟩
  intro n hn
  rw [Score.add_cleared_rows_eq]
  exact Nat.mod_eq_of_lt hn

/-- Witness for C4 (amended) at a concrete total and call sequence. -/
theorem C4_add_cleared_rows_amended_witness :
    (7 : Nat) + 1200 * ([1, 2, 3, 4, 5, 0] : List Nat).length < U32_MOD ∧
    ((∀ n, (Score.add_cleared_rows ⟨7⟩ n).snd = (Score.add_cleared_rows ⟨7⟩ n).fst.val) ∧
     (∀ n, 7 + clearedRowsAward n < U32_MOD →
       (Score.add_cleared_rows ⟨7⟩ n).fst.val = 7 + clearedRowsAward n) ∧
     clearedRowsAward 0 = 0 ∧ clearedRowsAward 1 = 40 ∧ clearedRowsAward 2 = 100 ∧
     clearedRowsAward 3 = 300 ∧ clearedRowsAward 4 = 1200 ∧
     (∀ n, 4 < n → clearedRowsAward n = 0) ∧
     (List.foldl (fun sc n => (Score.add_cleared_rows sc n).fst) ⟨7⟩ [1, 2, 3, 4, 5, 0]).val =
       7 + (([1, 2, 3, 4, 5, 0] : List Nat).map clearedRowsAward).sum ∧
     7 ≤ (List.foldl (fun sc n => (Score.add_cleared_rows sc n).fst) ⟨7⟩ [1, 2, 3, 4, 5, 0]).val ∧
     ((List.foldl (fun sc n => (Score.add_cleared_rows sc n).fst) ⟨7⟩ [1, 2, 3, 4, 5, 0]).val = 0 →
       (7 : Nat) = 0 ∧ (([1, 2, 3, 4, 5, 0] : List Nat).map clearedRowsAward).sum = 0) ∧
     (Score.reset ⟨7⟩).val = 0) :=
  ⟨by decide, C4_add_cleared_rows_amended 7 [1, 2, 3, 4, 5, 0] (by decide)⟩

/-! ## Claim C7: rotation is cyclic -/

theorem rotate_iterate_fields (t : ControlledTetromino)
    (hr : t.rotation < t.«structure».length) :
    ∀ n, (ControlledTetromino.rotate^[n] t).«structure» = t.«structure» ∧
      (ControlledTetromino.rotate^[n] t).top_left = t.top_left ∧
      (ControlledTetromino.rotate^[n] t).rotation =
        (t.rotation + n) % t.«structure».length := by
  intro n
  induction n with
  | zero =>
      refine ⟨rfl, rfl, ?_⟩
      simp [Nat.mod_eq_of_lt hr]
  | succ n ih =>
      obtain ⟨hs, htl, hrot⟩ := ih
      rw [Function.iterate_succ_apply']
      refine ⟨by rw [ControlledTetromino.rotate, hs], by rw [ControlledTetromino.rotate]; exact htl, ?_⟩
      rw [ControlledTetromino.rotate]
      simp only [hs, hrot]
      rw [Nat.mod_add_mod, Nat.add_assoc]

theorem ControlledTetromino.ext_fields {a b : ControlledTetromino}
    (h1 : a.«structure» = b.«structure») (h2 : a.rotation = b.rotation)
    (h3 : a.top_left = b.top_left) : a = b := by
  cases a
  cases b
  simp only at h1 h2 h3
  rw [h1, h2, h3]

/-- C7: for every piece kind, `rotate()` applied `state_count` times (2 for
I, S, Z; 1 for O; 4 for T, J, L) returns the piece to its original state
(matrix and anchor), and the rotation index stays a valid index into the
kind's rotation-state sequence after any number of rotations. -/
theorem C7_rotation_cyclic (ty : TetrominoType) (t : ControlledTetromino)
    (hs : t.«structure» = structure_with_rotations ty)
    (hr : t.rotation < t.«structure».length) :
    ((structure_with_rotations ty).length =
      match ty with
      | TetrominoType.I => 2
      | TetrominoType.S => 2
      | TetrominoType.Z => 2
      | TetrominoType.O => 1
      | _ => 4) ∧
    ControlledTetromino.rotate^[(structure_with_rotations ty).length] t = t ∧
    (∀ n, (ControlledTetromino.rotate^[n] t).rotation < t.«structure».length) ∧
    (∀ n, (ControlledTetromino.rotate^[n] t).top_left = t.top_left ∧
      (ControlledTetromino.rotate^[n] t).«structure» = t.«structure») := by
  have hpos : 0 < t.«structure».length := by omega
  refine ⟨by cases ty <;> rfl, ?_, ?_, ?_⟩
  · apply ControlledTetromino.ext_fields
    · exact (rotate_iterate_fields t hr _).1
    · obtain ⟨_, _, hfrot⟩ := rotate_iterate_fields t hr (structure_with_rotations ty).length
      rw [hfrot, hs, Nat.add_mod_right]
      exact Nat.mod_eq_of_lt (hs ▸ hr)
    · exact (rotate_iterate_fields t hr _).2.1
  · intro n
    obtain ⟨_, _, hfrot⟩ := rotate_iterate_fields t hr n
    rw [hfrot]
    exact Nat.mod_lt _ hpos
  · intro n
    obtain ⟨hfs, hftl, _⟩ := rotate_iterate_fields t hr n
    exact ⟨hftl, hfs⟩

/-- Witness for C7 at the `T` piece freshly spawned. -/
theorem C7_rotation_cyclic_witness :
    (new_with_tetromino_type TetrominoType.T).«structure» =
        structure_with_rotations TetrominoType.T ∧
    (new_with_tetromino_type TetrominoType.T).rotation <
        (new_with_tetromino_type TetrominoType.T).«structure».length ∧
    (((structure_with_rotations TetrominoType.T).length = 4) ∧
     ControlledTetromino.rotate^[(structure_with_rotations TetrominoType.T).length]
        (new_with_tetromino_type TetrominoType.T) = new_with_tetromino_type TetrominoType.T ∧
     (∀ n, (ControlledTetromino.rotate^[n] (new_with_tetromino_type TetrominoType.T)).rotation <
        (new_with_tetromino_type TetrominoType.T).«structure».length) ∧
     (∀ n, (ControlledTetromino.rotate^[n] (new_with_tetromino_type TetrominoType.T)).top_left =
        (new_with_tetromino_type TetrominoType.T).top_left ∧
      (ControlledTetromino.rotate^[n] (new_with_tetromino_type TetrominoType.T)).«structure» =
        (new_with_tetromino_type TetrominoType.T).«structure»)) :=
  ⟨rfl, by decide, C7_rotation_cyclic TetrominoType.T _ rfl (by decide)⟩

/-- Witness for C8 at a concrete grid with one full and one partial row. -/
theorem C8_clear_full_grid_rows_idempotent_witness :
    (Grid.mk (List.replicate 14 (List.replicate 10 false) ++
        [true :: List.replicate 9 false, List.replicate 10 true])).WF ∧
    (((Grid.mk (List.replicate 14 (List.replicate 10 false) ++
        [true :: List.replicate 9 false, List.replicate 10 true])).clear_full_grid_rows.fst).clear_full_grid_rows =
      ((Grid.mk (List.replicate 14 (List.replicate 10 false) ++
        [true :: List.replicate 9 false, List.replicate 10 true])).clear_full_grid_rows.fst, 0)) :=
  ⟨by decide, C8_clear_full_grid_rows_idempotent _ (by decide)⟩

/-- Witness for the amended C10 at a concrete grid and piece on which the
`tetris.rs` revision reports the space open. -/
theorem C10_rs_implies_components_witness :
    Grid.default.is_tetromino_space_open_rs (new_with_tetromino_type TetrominoType.O) = some true ∧
    Grid.default.is_tetromino_space_open (new_with_tetromino_type TetrominoType.O) = some true :=
  ⟨by decide, C10_rs_implies_components Grid.default (new_with_tetromino_type TetrominoType.O) (by decide)⟩

/-! ## Pointwise characterization of stamping -/

theorem set_values_cells_WF (tlx tly y : Nat) (val : Bool) :
    ∀ (row : List Bool) (x0 : Nat) (g : Grid), g.WF →
      (Grid.set_values_cells tlx tly y val g x0 row).WF := by
  intro row
  induction row with
  | nil => intro x0 g hg; exact hg
  | cons cell rest ih =>
      intro x0 g hg
      rw [Grid.set_values_cells]
      apply ih
      by_cases hc : cell = true
      · rw [if_pos hc]
        exact Grid.set_WF hg _ _ _
      · rw [if_neg hc]
        exact hg

theorem set_values_cells_cell (tlx tly y : Nat) (val : Bool) :
    ∀ (row : List Bool) (x0 : Nat) (g : Grid), g.WF → ∀ a b,
      (Grid.set_values_cells tlx tly y val g x0 row).cell a b =
        if b = tly + y ∧ a < GRID_WIDTH ∧ b < GRID_HEIGHT ∧ tlx + x0 ≤ a ∧
            (row[a - (tlx + x0)]?.getD false) = true
        then val else g.cell a b := by
  intro row
  induction row with
  | nil =>
      intro x0 g hg a b
      rw [Grid.set_values_cells, if_neg]
      rintro ⟨_, _, _, _, hidx⟩
      simp at hidx
  | cons cell rest ih =>
      intro x0 g hg a b
      rw [Grid.set_values_cells]
      by_cases hc : cell = true
      · subst hc
        rw [if_pos rfl]
        have hrec := ih (x0 + 1) (g.set (tlx + x0) (tly + y) val)
          (Grid.set_WF hg _ _ _) a b
        rw [hrec, Grid.cell_set hg]
        by_cases hC1 : b = tly + y ∧ a < GRID_WIDTH ∧ b < GRID_HEIGHT ∧
            tlx + (x0 + 1) ≤ a ∧ (rest[a - (tlx + (x0 + 1))]?.getD false) = true
        · rw [if_pos hC1, if_pos]
          obtain ⟨hb, haW, hbH, hle, hidx⟩ := hC1
          refine ⟨hb, haW, hbH, by omega, ?_⟩
          have hk : a - (tlx + x0) = (a - (tlx + (x0 + 1))) + 1 := by omega
          rw [hk]
          simpa using hidx
        · rw [if_neg hC1]
          by_cases hC2 : tlx + x0 = a ∧ tly + y = b ∧
              tlx + x0 < GRID_WIDTH ∧ tly + y < GRID_HEIGHT
          · rw [if_pos hC2, if_pos]
            obtain ⟨ha, hb, hW, hH⟩ := hC2
            refine ⟨hb.symm, by omega, by omega, by omega, ?_⟩
            have hk : a - (tlx + x0) = 0 := by omega
            rw [hk]
            simp
          · rw [if_neg hC2, if_neg]
            rintro ⟨hb, haW, hbH, hle, hidx⟩
            rcases Nat.lt_or_ge (tlx + x0) a with hlt | hge
            · apply hC1
              refine ⟨hb, haW, hbH, by omega, ?_⟩
              have hk : a - (tlx + x0) = (a - (tlx + (x0 + 1))) + 1 := by omega
              rw [hk] at hidx
              simpa using hidx
            · have ha : a = tlx + x0 := by omega
              exact hC2 ⟨ha.symm, hb.symm, by omega, by omega⟩
      · have hcf : cell = false := by simpa using hc
        subst hcf
        rw [if_neg (by simp)]
        have hrec := ih (x0 + 1) g hg a b
        rw [hrec]
        by_cases hC1 : b = tly + y ∧ a < GRID_WIDTH ∧ b < GRID_HEIGHT ∧
            tlx + (x0 + 1) ≤ a ∧ (rest[a - (tlx + (x0 + 1))]?.getD false) = true
        · rw [if_pos hC1, if_pos]
          obtain ⟨hb, haW, hbH, hle, hidx⟩ := hC1
          refine ⟨hb, haW, hbH, by omega, ?_⟩
          have hk : a - (tlx + x0) = (a - (tlx + (x0 + 1))) + 1 := by omega
          rw [hk]
          simpa using hidx
        · rw [if_neg hC1, if_neg]
          rintro ⟨hb, haW, hbH, hle, hidx⟩
          apply hC1
          rcases Nat.lt_or_ge (tlx + x0) a with hlt | hge
          · refine ⟨hb, haW, hbH, by omega, ?_⟩
            have hk : a - (tlx + x0) = (a - (tlx + (x0 + 1))) + 1 := by omega
            rw [hk] at hidx
            simpa using hidx
          · have ha : a = tlx + x0 := by omega
            rw [ha] at hidx
            simp at hidx

theorem set_values_rows_WF (tlx tly : Nat) (val : Bool) :
    ∀ (rows : List (List Bool)) (y0 : Nat) (g : Grid), g.WF →
      (Grid.set_values_rows tlx tly val g y0 rows).WF := by
  intro rows
  induction rows with
  | nil => intro y0 g hg; exact hg
  | cons row rest ih =>
      intro y0 g hg
      rw [Grid.set_values_rows]
      exact ih (y0 + 1) _ (set_values_cells_WF tlx tly y0 val row 0 g hg)

theorem set_values_rows_cell (tlx tly : Nat) (val : Bool) :
    ∀ (rows : List (List Bool)) (y0 : Nat) (g : Grid), g.WF → ∀ a b,
      (Grid.set_values_rows tlx tly val g y0 rows).cell a b =
        if a < GRID_WIDTH ∧ b < GRID_HEIGHT ∧ tlx ≤ a ∧ tly + y0 ≤ b ∧
            ((rows[b - (tly + y0)]?.getD [])[a - tlx]?.getD false) = true
        then val else g.cell a b := by
  intro rows
  induction rows with
  | nil =>
      intro y0 g hg a b
      rw [Grid.set_values_rows, if_neg]
      rintro ⟨_, _, _, _, hidx⟩
      simp at hidx
  | cons row rest ih =>
      intro y0 g hg a b
      rw [Grid.set_values_rows]
      have hrec := ih (y0 + 1) _ (set_values_cells_WF tlx tly y0 val row 0 g hg) a b
      rw [hrec, set_values_cells_cell tlx tly y0 val row 0 g hg a b]
      by_cases hC1 : a < GRID_WIDTH ∧ b < GRID_HEIGHT ∧ tlx ≤ a ∧ tly + (y0 + 1) ≤ b ∧
          ((rest[b - (tly + (y0 + 1))]?.getD [])[a - tlx]?.getD false) = true
      · rw [if_pos hC1, if_pos]
        obtain ⟨haW, hbH, hlea, hleb, hidx⟩ := hC1
        refine ⟨haW, hbH, hlea, by omega, ?_⟩
        have hk : b - (tly + y0) = (b - (tly + (y0 + 1))) + 1 := by omega
        rw [hk]
        simpa using hidx
      · rw [if_neg hC1]
        by_cases hC2 : b = tly + y0 ∧ a < GRID_WIDTH ∧ b < GRID_HEIGHT ∧ tlx + 0 ≤ a ∧
            (row[a - (tlx + 0)]?.getD false) = true
        · rw [if_pos hC2, if_pos]
          obtain ⟨hb, haW, hbH, hlea, hidx⟩ := hC2
          refine ⟨haW, hbH, by omega, by omega, ?_⟩
          have hk : b - (tly + y0) = 0 := by omega
          rw [hk]
          simp only [List.getElem?_cons_zero, Option.getD_some]
          have hk2 : a - tlx = a - (tlx + 0) := by omega
          rw [hk2]
          exact hidx
        · rw [if_neg hC2, if_neg]
          rintro ⟨haW, hbH, hlea, hleb, hidx⟩
          rcases Nat.lt_or_ge (tly + y0) b with hlt | hge
          · apply hC1
            refine ⟨haW, hbH, hlea, by omega, ?_⟩
            have hk : b - (tly + y0) = (b - (tly + (y0 + 1))) + 1 := by omega
            rw [hk] at hidx
            simpa using hidx
          · have hb : b = tly + y0 := by omega
            apply hC2
            refine ⟨hb, haW, hbH, by omega, ?_⟩
            have hk : b - (tly + y0) = 0 := by omega
            rw [hk] at hidx
            simp only [List.getElem?_cons_zero, Option.getD_some] at hidx
            have hk2 : a - (tlx + 0) = a - tlx := by omega
            rw [hk2]
            exact hidx

/-- Absolute board coordinates covered by the piece's footprint. -/
def InFoot (t : ControlledTetromino) (a b : Nat) : Prop :=
  t.top_left.fst ≤ a ∧ t.top_left.snd ≤ b ∧
  filled t.current_structure (a - t.top_left.fst) (b - t.top_left.snd) = true

instance (t : ControlledTetromino) (a b : Nat) : Decidable (InFoot t a b) := by
  unfold InFoot; infer_instance

theorem set_tetromino_values_WF {g : Grid} (hg : g.WF) (t : ControlledTetromino) (val : Bool) :
    (g.set_tetromino_values t val).WF :=
  set_values_rows_WF _ _ val t.current_structure 0 g hg

theorem set_tetromino_values_cell {g : Grid} (hg : g.WF) (t : ControlledTetromino)
    (val : Bool) (a b : Nat) :
    (g.set_tetromino_values t val).cell a b =
      if a < GRID_WIDTH ∧ b < GRID_HEIGHT ∧ InFoot t a b then val else g.cell a b := by
  rw [Grid.set_tetromino_values,
    set_values_rows_cell t.top_left.fst t.top_left.snd val t.current_structure 0 g hg a b]
  by_cases hC : a < GRID_WIDTH ∧ b < GRID_HEIGHT ∧ t.top_left.fst ≤ a ∧
      t.top_left.snd + 0 ≤ b ∧
      ((t.current_structure[b - (t.top_left.snd + 0)]?.getD [])[a - t.top_left.fst]?.getD false) = true
  · rw [if_pos hC, if_pos]
    obtain ⟨haW, hbH, hlea, hleb, hidx⟩ := hC
    refine ⟨haW, hbH, hlea, by omega, ?_⟩
    rw [filled]
    have hk : b - t.top_left.snd = b - (t.top_left.snd + 0) := by omega
    rw [hk]
    exact hidx
  · rw [if_neg hC, if_neg]
    rintro ⟨haW, hbH, hlea, hleb, hidx⟩
    apply hC
    rw [filled] at hidx
    refine ⟨haW, hbH, hlea, by omega, ?_⟩
    have hk : b - (t.top_left.snd + 0) = b - t.top_left.snd := by omega
    rw [hk]
    exact hidx

/-! ## Occupied-cell counting -/

/-- Number of occupied cells of the board. -/
def Grid.count (g : Grid) : Nat :=
  (g.grid.map (fun row => row.countP (fun c => c))).sum

/-- Number of filled cells of the piece's current rotation matrix. -/
def filled_count (t : ControlledTetromino) : Nat :=
  (t.current_structure.map (fun row => row.countP (fun c => c))).sum

theorem sum_map_set (f : List Bool → Nat) :
    ∀ (l : List (List Bool)) (n : Nat) (a : List Bool) (h : n < l.length),
      ((l.set n a).map f).sum + f (l.get ⟨n, h⟩) = (l.map f).sum + f a := by
  intro l
  induction l with
  | nil => intro n a h; simp at h
  | cons hd tl ih =>
      intro n a h
      match n with
      | 0 => simp [Nat.add_comm, Nat.add_assoc, Nat.add_left_comm]
      | n + 1 =>
          have hn : n < tl.length := by simpa using h
          have := ih n a hn
          simp only [List.set_cons_succ, List.map_cons, List.sum_cons, List.get_cons_succ]
          omega

theorem countP_set_true :
    ∀ (row : List Bool) (x : Nat) (hx : x < row.length),
      row.get ⟨x, hx⟩ = false →
      (row.set x true).countP (fun c => c) = row.countP (fun c => c) + 1 := by
  intro row
  induction row with
  | nil => intro x h; simp at h
  | cons hd tl ih =>
      intro x hx hfalse
      match x with
      | 0 =>
          have hhd : hd = false := by simpa using hfalse
          subst hhd
          simp [List.countP_cons]
      | x + 1 =>
          have hx' : x < tl.length := by simpa using hx
          have hf : tl.get ⟨x, hx'⟩ = false := by simpa using hfalse
          simp only [List.set_cons_succ, List.countP_cons]
          rw [ih x hx' hf]
          omega

theorem count_set_true {g : Grid} (hg : g.WF) {x y : Nat}
    (hx : x < GRID_WIDTH) (hy : y < GRID_HEIGHT) (hfree : g.cell x y = false) :
    (g.set x y true).count = g.count + 1 := by
  obtain ⟨row, hrow, hlen⟩ := Grid.WF_row hg hy
  have hL : g.grid.length = GRID_HEIGHT := hg.1
  have hy' : y < g.grid.length := by omega
  have hx' : x < row.length := by omega
  have hrowg : g.grid.get ⟨y, hy'⟩ = row := by
    have := List.getElem?_eq_getElem hy'
    rw [this] at hrow
    simpa using Option.some.inj hrow
  have hcellrow : row.get ⟨x, hx'⟩ = false := by
    have hcv : g.cell x y = (row[x]?).getD false := by
      rw [Grid.cell, Grid.cellIdx, hrow]
    rw [List.getElem?_eq_getElem hx'] at hcv
    simp only [Option.getD_some] at hcv
    simp only [List.get_eq_getElem]
    rw [← hcv]
    exact hfree
  have hset : g.set x y true = ⟨g.grid.set y (row.set x true)⟩ := by
    rw [Grid.set, if_neg (by omega), hrow]
    rfl
  rw [hset]
  unfold Grid.count
  simp only
  have hsum := sum_map_set (fun row => row.countP (fun c => c)) g.grid y (row.set x true) hy'
  simp only at hsum
  rw [hrowg, countP_set_true row x hx' hcellrow] at hsum
  omega

theorem stamp_cells_count (tlx tly y : Nat) :
    ∀ (row : List Bool) (x0 : Nat) (g : Grid), g.WF →
      (∀ i, row[i]?.getD false = true →
        tlx + x0 + i < GRID_WIDTH ∧ tly + y < GRID_HEIGHT ∧
        g.cell (tlx + x0 + i) (tly + y) = false) →
      (Grid.set_values_cells tlx tly y true g x0 row).count =
        g.count + row.countP (fun c => c) := by
  intro row
  induction row with
  | nil => intro x0 g hg _; simp [Grid.set_values_cells]
  | cons cell rest ih =>
      intro x0 g hg hfree
      rw [Grid.set_values_cells]
      by_cases hc : cell = true
      · subst hc
        rw [if_pos rfl]
        have h0 := hfree 0 (by simp)
        have hW : tlx + x0 < GRID_WIDTH := by omega
        have hH : tly + y < GRID_HEIGHT := by omega
        have hfree0 : g.cell (tlx + x0) (tly + y) = false := by
          have := h0.2.2
          simpa using this
        have hcnt : (g.set (tlx + x0) (tly + y) true).count = g.count + 1 :=
          count_set_true hg hW hH hfree0
        have hg' : (g.set (tlx + x0) (tly + y) true).WF := Grid.set_WF hg _ _ _
        rw [ih (x0 + 1) _ hg' ?_, hcnt]
        · simp [List.countP_cons]
          omega
        · intro i hi
          have hrec := hfree (i + 1) (by simpa using hi)
          have he : tlx + x0 + (i + 1) = tlx + (x0 + 1) + i := by omega
          rw [he] at hrec
          refine ⟨hrec.1, hrec.2.1, ?_⟩
          rw [Grid.cell_set hg, if_neg]
          · exact hrec.2.2
          · rintro ⟨ha, hb, _, _⟩
            omega
      · have hcf : cell = false := by simpa using hc
        subst hcf
        rw [if_neg (by simp)]
        rw [ih (x0 + 1) g hg ?_]
        · simp [List.countP_cons]
        · intro i hi
          have hrec := hfree (i + 1) (by simpa using hi)
          have he : tlx + x0 + (i + 1) = tlx + (x0 + 1) + i := by omega
          rw [he] at hrec
          exact hrec

theorem stamp_rows_count (tlx tly : Nat) :
    ∀ (rows : List (List Bool)) (y0 : Nat) (g : Grid), g.WF →
      (∀ j row, rows[j]? = some row → ∀ i, row[i]?.getD false = true →
        tlx + i < GRID_WIDTH ∧ tly + (y0 + j) < GRID_HEIGHT ∧
        g.cell (tlx + i) (tly + (y0 + j)) = false) →
      (Grid.set_values_rows tlx tly true g y0 rows).count =
        g.count + (rows.map (fun row => row.countP (fun c => c))).sum := by
  intro rows
  induction rows with
  | nil => intro y0 g hg _; simp [Grid.set_values_rows]
  | cons row rest ih =>
      intro y0 g hg hfree
      rw [Grid.set_values_rows]
      have h0 := hfree 0 row (by simp)
      have hcells : (Grid.set_values_cells tlx tly y0 true g 0 row).count =
          g.count + row.countP (fun c => c) := by
        apply stamp_cells_count tlx tly y0 row 0 g hg
        intro i hi
        have := h0 i hi
        have he : tlx + 0 + i = tlx + i := by omega
        have he2 : tly + (y0 + 0) = tly + y0 := by omega
        rw [he]
        rw [he2] at this
        exact this
      have hg' := set_values_cells_WF tlx tly y0 true row 0 g hg
      rw [ih (y0 + 1) _ hg' ?_, hcells]
      · simp only [List.map_cons, List.sum_cons]
        omega
      · intro j rowj hj i hi
        have hrec := hfree (j + 1) rowj (by simpa using hj) i hi
        have he : tly + (y0 + (j + 1)) = tly + (y0 + 1 + j) := by omega
        rw [he] at hrec
        refine ⟨hrec.1, hrec.2.1, ?_⟩
        rw [set_values_cells_cell tlx tly y0 true row 0 g hg, if_neg]
        · exact hrec.2.2
        · rintro ⟨hb, _, _, _, _⟩
          omega

/-- Stamping a piece whose space is open adds exactly its filled-cell count
to the board's occupied-cell count. -/
theorem stamp_count {g : Grid} (hg : g.WF) {t : ControlledTetromino}
    (hopen : OpenSpec g t) :
    (g.set_tetromino t).count = g.count + filled_count t := by
  rw [Grid.set_tetromino, Grid.set_tetromino_values]
  rw [stamp_rows_count t.top_left.fst t.top_left.snd t.current_structure 0 g hg ?_]
  · rfl
  · intro j rowj hj i hi
    have hf : filled t.current_structure i j = true := by
      rw [filled, hj]
      simpa using hi
    have := hopen i j hf
    have he : t.top_left.snd + (0 + j) = t.top_left.snd + j := by omega
    rw [he]
    exact this

/-! ## Unstamping a stamped piece restores the board -/

theorem OpenSpec_abs {g : Grid} {t : ControlledTetromino} (h : OpenSpec g t) :
    ∀ a b, InFoot t a b →
      a < GRID_WIDTH ∧ b < GRID_HEIGHT ∧ g.cell a b = false := by
  intro a b hf
  obtain ⟨hlea, hleb, hfill⟩ := hf
  have := h (a - t.top_left.fst) (b - t.top_left.snd) hfill
  have e1 : t.top_left.fst + (a - t.top_left.fst) = a := by omega
  have e2 : t.top_left.snd + (b - t.top_left.snd) = b := by omega
  rw [e1, e2] at this
  exact this

theorem OpenSpec_of_abs {g : Grid} {t : ControlledTetromino}
    (h : ∀ a b, InFoot t a b →
      a < GRID_WIDTH ∧ b < GRID_HEIGHT ∧ g.cell a b = false) :
    OpenSpec g t := by
  intro x y hfill
  apply h
  refine ⟨by omega, by omega, ?_⟩
  have e1 : t.top_left.fst + x - t.top_left.fst = x := by omega
  have e2 : t.top_left.snd + y - t.top_left.snd = y := by omega
  rw [e1, e2]
  exact hfill

theorem unset_set_tetromino {g : Grid} (hg : g.WF) {t : ControlledTetromino}
    (hopen : OpenSpec g t) :
    (g.set_tetromino t).unset_tetromino t = g := by
  have hg1 : (g.set_tetromino t).WF := set_tetromino_values_WF hg t true
  have hg2 : ((g.set_tetromino t).unset_tetromino t).WF := set_tetromino_values_WF hg1 t false
  apply Grid.ext_cells hg2 hg
  intro x y hx hy
  rw [Grid.unset_tetromino, set_tetromino_values_cell hg1 t false x y]
  rw [Grid.set_tetromino, set_tetromino_values_cell hg t true x y]
  by_cases hf : InFoot t x y
  · rw [if_pos ⟨hx, hy, hf⟩]
    exact ((OpenSpec_abs hopen) x y hf).2.2.symm
  · rw [if_neg (by tauto), if_neg (by tauto)]

/-- A cell unoccupied in the stamped board is unoccupied in the board
below the stamp. -/
theorem cell_false_of_stamped {g : Grid} (hg : g.WF) {t : ControlledTetromino}
    {a b : Nat} (h : (g.set_tetromino t).cell a b = false) :
    g.cell a b = false := by
  rw [Grid.set_tetromino, set_tetromino_values_cell hg t true a b] at h
  by_cases hc : a < GRID_WIDTH ∧ b < GRID_HEIGHT ∧ InFoot t a b
  · rw [if_pos hc] at h; simp at h
  · rw [if_neg hc] at h; exact h

/-! ## First/last filled index facts -/

theorem firstFilled_none :
    ∀ (row : List Bool), firstFilled row = none →
      ∀ i : Nat, row[i]?.getD false = false := by
  intro row
  induction row with
  | nil => intro _ i; simp
  | cons cell rest ih =>
      intro h i
      rw [firstFilled] at h
      by_cases hc : cell = true
      · rw [if_pos hc] at h; simp at h
      · have hcf : cell = false := by simpa using hc
        subst hcf
        rw [if_neg (by simp)] at h
        match i with
        | 0 => simp
        | i + 1 =>
            have : firstFilled rest = none := by
              rcases hr : firstFilled rest with _ | k
              · rfl
              · rw [hr] at h; simp at h
            simpa using ih this i

theorem firstFilled_some :
    ∀ (row : List Bool) (i : Nat), firstFilled row = some i →
      row[i]?.getD false = true ∧ ∀ k : Nat, k < i → row[k]?.getD false = false := by
  intro row
  induction row with
  | nil => intro i h; simp [firstFilled] at h
  | cons cell rest ih =>
      intro i h
      rw [firstFilled] at h
      by_cases hc : cell = true
      · subst hc
        rw [if_pos rfl] at h
        have hi : i = 0 := by simpa using h.symm
        subst hi
        exact ⟨by simp, by omega⟩
      · have hcf : cell = false := by simpa using hc
        subst hcf
        rw [if_neg (by simp)] at h
        rcases hr : firstFilled rest with _ | k
        · rw [hr] at h; simp at h
        · rw [hr] at h
          simp only [Option.map_some', Option.some.injEq] at h
          subst h
          obtain ⟨h1, h2⟩ := ih k hr
          refine ⟨by simpa using h1, ?_⟩
          intro m hm
          match m with
          | 0 => simp
          | m + 1 => simpa using h2 m (by omega)

theorem firstFilled_zero {row : List Bool} (h : row[0]?.getD false = true) :
    firstFilled row = some 0 := by
  match row with
  | [] => simp at h
  | cell :: rest =>
      simp only [List.getElem?_cons_zero, Option.getD_some] at h
      subst h
      rw [firstFilled, if_pos rfl]

theorem firstFilled_isSome_of_filled {row : List Bool} {i : Nat}
    (h : row[i]?.getD false = true) : (firstFilled row).isSome = true := by
  rcases hr : firstFilled row with _ | k
  · have := firstFilled_none row hr i
    rw [this] at h
    simp at h
  · rfl

/-! ## Characterization of the sideways-blocking checks -/

theorem blocked_left_rows_spec {g : Grid} (hg : g.WF) (tlx tly : Nat) :
    ∀ (rows : List (List Bool)) (y0 : Nat),
      (∀ j row, rows[j]? = some row →
        ∃ i : Nat, row[i]?.getD false = true ∧ tlx + i < GRID_WIDTH ∧
          tly + (y0 + j) < GRID_HEIGHT) →
      ∃ b, g.blocked_left_rows tlx tly y0 rows = some b ∧
        (b = false → ∀ j row, rows[j]? = some row →
          rowLeft tlx row ≠ 0 ∧
          g.cell (rowLeft tlx row - 1) (tly + (y0 + j)) = false) := by
  intro rows
  induction rows with
  | nil => intro y0 _; exact ⟨false, rfl, by intro _ j row hj; simp at hj⟩
  | cons row rest ih =>
      intro y0 hrows
      obtain ⟨i, hi, hiW, hiH⟩ := hrows 0 row (by simp)
      rcases hff : firstFilled row with _ | i0
      · have := firstFilled_none row hff i
        rw [this] at hi
        simp at hi
      · obtain ⟨hfill0, hmin0⟩ := firstFilled_some row i0 hff
        have hI0 : i0 ≤ i := by
          by_contra hgt
          push_neg at hgt
          have := hmin0 i hgt
          rw [this] at hi
          simp at hi
        have hleft : rowLeft tlx row = i0 + tlx := by rw [rowLeft, hff]
        by_cases hz : rowLeft tlx row = 0
        · refine ⟨true, ?_, by intro h; simp at h⟩
          rw [Grid.blocked_left_rows, hleft]
          rw [hleft] at hz
          rw [if_pos hz]
        · have hyH : tly + y0 < GRID_HEIGHT := by
            have e : tly + (y0 + 0) = tly + y0 := by omega
            rw [e] at hiH
            exact hiH
          have hxW : rowLeft tlx row - 1 < GRID_WIDTH := by
            rw [hleft]
            omega
          have hidx := Grid.cellIdx_eq hg hxW hyH
          by_cases hocc : g.cell (rowLeft tlx row - 1) (tly + y0) = true
          · refine ⟨true, ?_, by intro h; simp at h⟩
            rw [Grid.blocked_left_rows, hleft]
            rw [hleft] at hz hidx hocc
            rw [if_neg hz, hidx, hocc]
            rfl
          · have hfree : g.cell (rowLeft tlx row - 1) (tly + y0) = false := by
              simpa using hocc
            have hrest : ∀ j rowj, rest[j]? = some rowj →
                ∃ i : Nat, rowj[i]?.getD false = true ∧ tlx + i < GRID_WIDTH ∧
                  tly + (y0 + 1 + j) < GRID_HEIGHT := by
              intro j rowj hj
              obtain ⟨i', hi', hW', hH'⟩ := hrows (j + 1) rowj (by simpa using hj)
              refine ⟨i', hi', hW', ?_⟩
              have e : tly + (y0 + (j + 1)) = tly + (y0 + 1 + j) := by omega
              rw [← e]
              exact hH'
            obtain ⟨b, hb, hfacts⟩ := ih (y0 + 1) hrest
            refine ⟨b, ?_, ?_⟩
            · rw [Grid.blocked_left_rows, hleft]
              rw [hleft] at hz hidx hfree
              rw [if_neg hz, hidx, hfree]
              simpa using hb
            · intro hbf j rowj hj
              match j with
              | 0 =>
                  simp only [List.getElem?_cons_zero, Option.some.injEq] at hj
                  subst hj
                  have e : tly + (y0 + 0) = tly + y0 := by omega
                  rw [e]
                  exact ⟨hz, hfree⟩
              | j + 1 =>
                  have := hfacts hbf j rowj (by simpa using hj)
                  have e : tly + (y0 + 1 + j) = tly + (y0 + (j + 1)) := by omega
                  rw [e] at this
                  exact this

theorem rowRight_filled_le {row : List Bool} {i : Nat}
    (h : row[i]?.getD false = true) :
    row[rowRight row]?.getD false = true ∧
    ∀ k : Nat, rowRight row < k → row[k]?.getD false = false := by
  have hil : i < row.length := by
    by_contra hge
    push_neg at hge
    rw [List.getElem?_eq_none hge] at h
    simp at h
  have hrev : row.reverse[row.length - 1 - i]?.getD false = true := by
    rw [List.getElem?_reverse (by simpa using (by omega : row.length - 1 - i < row.length))]
    have e : row.length - 1 - (row.length - 1 - i) = i := by omega
    rw [e]
    exact h
  rcases hff : firstFilled row.reverse with _ | r0
  · have := firstFilled_none row.reverse hff (row.length - 1 - i)
    rw [this] at hrev
    simp at hrev
  · obtain ⟨hfill0, hmin0⟩ := firstFilled_some row.reverse r0 hff
    have hr0len : r0 < row.length := by
      by_contra hge
      push_neg at hge
      rw [List.getElem?_eq_none (by simpa using hge)] at hfill0
      simp at hfill0
    have hRR : rowRight row = row.length - 1 - r0 := by rw [rowRight, hff]
    constructor
    · rw [hRR]
      rw [List.getElem?_reverse (by simpa using hr0len)] at hfill0
      exact hfill0
    · intro k hk
      rw [hRR] at hk
      rcases Nat.lt_or_ge k row.length with hkl | hkl
      · have hkrev : row.length - 1 - k < r0 := by omega
        have := hmin0 (row.length - 1 - k) hkrev
        rw [List.getElem?_reverse (by simpa using (by omega : row.length - 1 - k < row.length))] at this
        have e : row.length - 1 - (row.length - 1 - k) = k := by omega
        rw [e] at this
        exact this
      · rw [List.getElem?_eq_none hkl]
        rfl

theorem blocked_right_rows_spec {g : Grid} (hg : g.WF) (tlx tly : Nat) :
    ∀ (rows : List (List Bool)) (y0 : Nat),
      (∀ j row, rows[j]? = some row → tly + (y0 + j) < GRID_HEIGHT) →
      ∃ b, g.blocked_right_rows tlx tly y0 rows = some b ∧
        (b = false → ∀ j row, rows[j]? = some row →
          rowRight row + tlx ≠ GRID_WIDTH - 1 ∧
          (rowRight row + tlx < GRID_WIDTH - 1 →
            g.cell (rowRight row + tlx + 1) (tly + (y0 + j)) = false)) := by
  intro rows
  induction rows with
  | nil => intro y0 _; exact ⟨false, rfl, by intro _ j row hj; simp at hj⟩
  | cons row rest ih =>
      intro y0 hrows
      have hyH : tly + y0 < GRID_HEIGHT := by
        have := hrows 0 row (by simp)
        have e : tly + (y0 + 0) = tly + y0 := by omega
        rw [e] at this
        exact this
      by_cases hedge : rowRight row + tlx = GRID_WIDTH - 1
      · refine ⟨true, ?_, by intro h; simp at h⟩
        rw [Grid.blocked_right_rows, if_pos hedge]
      · by_cases hlt : rowRight row + tlx < GRID_WIDTH - 1
        · have hxW : rowRight row + tlx + 1 < GRID_WIDTH := by
            have : (0:Nat) < GRID_WIDTH := by decide
            omega
          have hidx := Grid.cellIdx_eq hg hxW hyH
          by_cases hocc : g.cell (rowRight row + tlx + 1) (tly + y0) = true
          · refine ⟨true, ?_, by intro h; simp at h⟩
            rw [Grid.blocked_right_rows, if_neg hedge, if_pos hlt, hidx, hocc]
            rfl
          · have hfree : g.cell (rowRight row + tlx + 1) (tly + y0) = false := by
              simpa using hocc
            have hrest : ∀ j rowj, rest[j]? = some rowj →
                tly + (y0 + 1 + j) < GRID_HEIGHT := by
              intro j rowj hj
              have := hrows (j + 1) rowj (by simpa using hj)
              have e : tly + (y0 + (j + 1)) = tly + (y0 + 1 + j) := by omega
              rw [← e]
              exact this
            obtain ⟨b, hb, hfacts⟩ := ih (y0 + 1) hrest
            refine ⟨b, ?_, ?_⟩
            · rw [Grid.blocked_right_rows, if_neg hedge, if_pos hlt, hidx, hfree]
              simpa using hb
            · intro hbf j rowj hj
              match j with
              | 0 =>
                  simp only [List.getElem?_cons_zero, Option.some.injEq] at hj
                  subst hj
                  have e : tly + (y0 + 0) = tly + y0 := by omega
                  rw [e]
                  exact ⟨hedge, fun _ => hfree⟩
              | j + 1 =>
                  have := hfacts hbf j rowj (by simpa using hj)
                  have e : tly + (y0 + 1 + j) = tly + (y0 + (j + 1)) := by omega
                  rw [e] at this
                  exact this
        · have hrest : ∀ j rowj, rest[j]? = some rowj →
              tly + (y0 + 1 + j) < GRID_HEIGHT := by
            intro j rowj hj
            have := hrows (j + 1) rowj (by simpa using hj)
            have e : tly + (y0 + (j + 1)) = tly + (y0 + 1 + j) := by omega
            rw [← e]
            exact this
          obtain ⟨b, hb, hfacts⟩ := ih (y0 + 1) hrest
          refine ⟨b, ?_, ?_⟩
          · rw [Grid.blocked_right_rows, if_neg hedge, if_neg hlt]
            exact hb
          · intro hbf j rowj hj
            match j with
            | 0 =>
                simp only [List.getElem?_cons_zero, Option.some.injEq] at hj
                subst hj
                exact ⟨hedge, fun hc => absurd hc hlt⟩
            | j + 1 =>
                have := hfacts hbf j rowj (by simpa using hj)
                have e : tly + (y0 + 1 + j) = tly + (y0 + (j + 1)) := by omega
                rw [e] at this
                exact this

/-! ## Characterization of `is_tetromino_at_bottom` -/

theorem contains_append_one (cols : List Nat) (a x : Nat) :
    (cols ++ [a]).contains x = (cols.contains x || x == a) := by
  induction cols with
  | nil =>
      simp only [List.nil_append, List.contains_cons, List.contains_nil, Bool.or_false,
        Bool.false_or]
  | cons c cs ih =>
      simp only [List.cons_append, List.contains_cons, ih, Bool.or_assoc]

theorem at_bottom_cells_spec {g : Grid} (hg : g.WF) (tlx tly y : Nat) :
    ∀ (row : List Bool) (x0 : Nat) (cols : List Nat),
      (∀ i : Nat, row[i]?.getD false = true →
        tlx + (x0 + i) < GRID_WIDTH ∧ tly + y < GRID_HEIGHT) →
      ∃ r, g.at_bottom_cells tlx tly y x0 row cols = some r ∧
        (r.fst = false →
          ((∀ i : Nat, row[i]?.getD false = true → cols.contains (x0 + i) = false →
            tly + y ≠ GRID_HEIGHT - 1 ∧ g.cell (tlx + (x0 + i)) (tly + y + 1) = false) ∧
           (∀ x : Nat, r.snd.contains x = true ↔
             (cols.contains x = true ∨
              ∃ i : Nat, row[i]?.getD false = true ∧ x = x0 + i)))) := by
  intro row
  induction row with
  | nil =>
      intro x0 cols _
      refine ⟨(false, cols), rfl, ?_⟩
      intro _
      refine ⟨by intro i hi; simp at hi, ?_⟩
      intro x
      simp
  | cons cell rest ih =>
      intro x0 cols hb
      rw [Grid.at_bottom_cells]
      by_cases hcond : cell = true ∧ cols.contains x0 = false
      · rw [if_pos hcond]
        by_cases hlast : tly + y = GRID_HEIGHT - 1
        · rw [if_pos hlast]
          exact ⟨(true, cols ++ [x0]), rfl, by intro h; simp at h⟩
        · rw [if_neg hlast]
          have h0 := hb 0 (by simp [hcond.1])
          have hyH : tly + y < GRID_HEIGHT := h0.2
          have hxW : tlx + x0 < GRID_WIDTH := by
            have := h0.1
            have e : x0 + 0 = x0 := by omega
            rw [e] at this
            exact this
          have hy1 : tly + y + 1 < GRID_HEIGHT := by
            have hGH : GRID_HEIGHT = 16 := rfl
            omega
          have hidx := Grid.cellIdx_eq hg hxW hy1
          by_cases hocc : g.cell (tlx + x0) (tly + y + 1) = true
          · rw [hidx, hocc]
            exact ⟨(true, cols ++ [x0]), rfl, by intro h; simp at h⟩
          · have hfree : g.cell (tlx + x0) (tly + y + 1) = false := by simpa using hocc
            rw [hidx, hfree]
            have hb' : ∀ i : Nat, rest[i]?.getD false = true →
                tlx + ((x0 + 1) + i) < GRID_WIDTH ∧ tly + y < GRID_HEIGHT := by
              intro i hi
              have := hb (i + 1) (by simpa using hi)
              have e : x0 + (i + 1) = x0 + 1 + i := by omega
              rw [e] at this
              exact this
            obtain ⟨r, hr, hfacts⟩ := ih (x0 + 1) (cols ++ [x0]) hb'
            refine ⟨r, by simpa using hr, ?_⟩
            intro hrf
            obtain ⟨hA, hB⟩ := hfacts hrf
            constructor
            · intro i hi hci
              match i with
              | 0 =>
                  have e : x0 + 0 = x0 := by omega
                  rw [e]
                  exact ⟨hlast, hfree⟩
              | i + 1 =>
                  have hci' : (cols ++ [x0]).contains (x0 + 1 + i) = false := by
                    rw [contains_append_one]
                    have e : x0 + (i + 1) = x0 + 1 + i := by omega
                    rw [e] at hci
                    rw [hci]
                    simp
                    omega
                  have := hA i (by simpa using hi) hci'
                  have e : x0 + 1 + i = x0 + (i + 1) := by omega
                  rw [e] at this
                  exact this
            · intro x
              rw [hB x]
              constructor
              · rintro (hcx | ⟨i, hi, rfl⟩)
                · rw [contains_append_one] at hcx
                  rcases Bool.or_eq_true_iff.mp hcx with h1 | h1
                  · exact Or.inl h1
                  · refine Or.inr ⟨0, by simp [hcond.1], ?_⟩
                    have : x = x0 := by simpa using h1
                    omega
                · refine Or.inr ⟨i + 1, by simpa using hi, by omega⟩
              · rintro (hcx | ⟨i, hi, rfl⟩)
                · left
                  rw [contains_append_one, hcx]
                  simp
                · match i with
                  | 0 =>
                      left
                      rw [contains_append_one]
                      simp
                  | i + 1 =>
                      refine Or.inr ⟨i, by simpa using hi, by omega⟩
      · rw [if_neg hcond]
        have hb' : ∀ i : Nat, rest[i]?.getD false = true →
            tlx + ((x0 + 1) + i) < GRID_WIDTH ∧ tly + y < GRID_HEIGHT := by
          intro i hi
          have := hb (i + 1) (by simpa using hi)
          have e : x0 + (i + 1) = x0 + 1 + i := by omega
          rw [e] at this
          exact this
        obtain ⟨r, hr, hfacts⟩ := ih (x0 + 1) cols hb'
        refine ⟨r, hr, ?_⟩
        intro hrf
        obtain ⟨hA, hB⟩ := hfacts hrf
        have hcond' : cell = false ∨ cols.contains x0 = true := by
          by_cases hc : cell = true
          · right
            by_contra hcc
            exact hcond ⟨hc, by simpa using hcc⟩
          · left
            simpa using hc
        constructor
        · intro i hi hci
          match i with
          | 0 =>
              simp only [List.getElem?_cons_zero, Option.getD_some] at hi
              rcases hcond' with hc | hc
              · rw [hc] at hi; simp at hi
              · have e : x0 + 0 = x0 := by omega
                rw [e] at hci
                rw [hci] at hc
                simp at hc
          | i + 1 =>
              have hci' : cols.contains (x0 + 1 + i) = false := by
                have e : x0 + (i + 1) = x0 + 1 + i := by omega
                rw [e] at hci
                exact hci
              have := hA i (by simpa using hi) hci'
              have e : x0 + 1 + i = x0 + (i + 1) := by omega
              rw [e] at this
              exact this
        · intro x
          rw [hB x]
          constructor
          · rintro (hcx | ⟨i, hi, rfl⟩)
            · exact Or.inl hcx
            · exact Or.inr ⟨i + 1, by simpa using hi, by omega⟩
          · rintro (hcx | ⟨i, hi, rfl⟩)
            · exact Or.inl hcx
            · match i with
              | 0 =>
                  simp only [List.getElem?_cons_zero, Option.getD_some] at hi
                  rcases hcond' with hc | hc
                  · rw [hc] at hi; simp at hi
                  · left
                    have e : x0 + 0 = x0 := by omega
                    rw [e]
                    exact hc
              | i + 1 =>
                  exact Or.inr ⟨i, by simpa using hi, by omega⟩

theorem at_bottom_rows_spec {g : Grid} (hg : g.WF) (tlx tly : Nat) :
    ∀ (rs : List (Nat × List Bool)) (cols : List Nat),
      (∀ p ∈ rs, ∀ i : Nat, (p.snd)[i]?.getD false = true →
        tlx + i < GRID_WIDTH ∧ tly + p.fst < GRID_HEIGHT) →
      ∃ b, g.at_bottom_rows tlx tly rs cols = some b ∧
        (b = false → ∀ x : Nat, cols.contains x = false →
          ∀ y row, rs.find? (fun p => (p.snd)[x]?.getD false) = some (y, row) →
            tly + y ≠ GRID_HEIGHT - 1 ∧ g.cell (tlx + x) (tly + y + 1) = false) := by
  intro rs
  induction rs with
  | nil =>
      intro cols _
      refine ⟨false, rfl, ?_⟩
      intro _ x _ y row hfind
      simp at hfind
  | cons p rest ih =>
      intro cols hrs
      obtain ⟨y0, row⟩ := p
      have hb : ∀ i : Nat, row[i]?.getD false = true →
          tlx + (0 + i) < GRID_WIDTH ∧ tly + y0 < GRID_HEIGHT := by
        intro i hi
        have := hrs (y0, row) (by simp) i hi
        have e : 0 + i = i := by omega
        rw [e]
        exact this
      obtain ⟨r, hr, hfacts⟩ := at_bottom_cells_spec hg tlx tly y0 row 0 cols hb
      rw [Grid.at_bottom_rows, hr]
      simp only [Option.bind_eq_bind, Option.some_bind]
      by_cases hrf : r.fst = true
      · rw [hrf]
        exact ⟨true, by simp, by intro h; simp at h⟩
      · have hrff : r.fst = false := by simpa using hrf
        rw [hrff]
        obtain ⟨hA, hB⟩ := hfacts hrff
        obtain ⟨b, hbeq, hbf⟩ := ih r.snd (by
          intro q hq i hi
          exact hrs q (by simp [hq]) i hi)
        refine ⟨b, by simpa using hbeq, ?_⟩
        intro hbfalse x hcx y rowy hfind
        rw [List.find?_cons] at hfind
        rcases hfill : row[x]?.getD false with _ | _
        · rw [hfill] at hfind
          have hsnd : r.snd.contains x = false := by
            rcases hc : r.snd.contains x with _ | _
            · rfl
            · have := (hB x).mp hc
              rcases this with hcc | ⟨i, hi, rfl⟩
              · rw [hcc] at hcx; simp at hcx
              · have e : 0 + i = i := by omega
                rw [e] at hfill
                rw [hi] at hfill
                simp at hfill
          exact hbf hbfalse x hsnd y rowy hfind
        · rw [hfill] at hfind
          simp only [Option.some.injEq, Prod.mk.injEq] at hfind
          obtain ⟨rfl, rfl⟩ := hfind
          have := hA x (by simpa using hfill) (by
            have e : 0 + x = x := by omega
            rw [e]
            exact hcx)
          have e : 0 + x = x := by omega
          rw [e] at this
          exact this

theorem find_enumFrom_reverse (x : Nat) :
    ∀ (s : List (List Bool)) (n y : Nat) (row : List Bool),
      s[y]? = some row → row[x]?.getD false = true →
      (∀ y' : Nat, y < y' → (s[y']?.getD [])[x]?.getD false = false) →
      ((s.enumFrom n).reverse).find? (fun p => (p.snd)[x]?.getD false) =
        some (n + y, row) := by
  intro s
  induction s with
  | nil => intro n y row hy; simp at hy
  | cons r rest ih =>
      intro n y row hy hf hmax
      rw [List.enumFrom_cons, List.reverse_cons, List.find?_append]
      match y with
      | 0 =>
          simp only [List.getElem?_cons_zero, Option.some.injEq] at hy
          subst hy
          have hnone : ((rest.enumFrom (n + 1)).reverse).find?
              (fun p => (p.snd)[x]?.getD false) = none := by
            rw [List.find?_eq_none]
            intro p hp
            obtain ⟨pi, pv⟩ := p
            rw [List.mem_reverse] at hp
            obtain ⟨hle, hget⟩ := List.mk_mem_enumFrom_iff_le_and_getElem?_sub.mp hp
            have hidx := hmax (pi - n) (by omega)
            have e : (r :: rest)[pi - n]? = rest[pi - (n + 1)]? := by
              have e2 : pi - n = (pi - (n + 1)) + 1 := by omega
              rw [e2]
              simp
            rw [e, hget] at hidx
            simp only [Option.getD_some] at hidx
            simp [hidx]
          rw [hnone]
          simp only [Option.none_or]
          rw [List.find?_cons]
          rw [hf]
          simp
      | y + 1 =>
          have hy' : rest[y]? = some row := by simpa using hy
          have hmax' : ∀ y' : Nat, y < y' → (rest[y']?.getD [])[x]?.getD false = false := by
            intro y' hyy
            have := hmax (y' + 1) (by omega)
            simpa using this
          have := ih (n + 1) y row hy' hf hmax'
          rw [this]
          simp only [Option.or_some]
          congr 2
          omega

theorem at_bottom_spec {g : Grid} (hg : g.WF) (t : ControlledTetromino)
    (hin : ∀ x y : Nat, filled t.current_structure x y = true →
      t.top_left.fst + x < GRID_WIDTH ∧ t.top_left.snd + y < GRID_HEIGHT) :
    ∃ b, g.is_tetromino_at_bottom t = some b ∧
      (b = false → ∀ x y : Nat, filled t.current_structure x y = true →
        (∀ y' : Nat, y < y' → filled t.current_structure x y' = false) →
        t.top_left.snd + y ≠ GRID_HEIGHT - 1 ∧
        g.cell (t.top_left.fst + x) (t.top_left.snd + y + 1) = false) := by
  have hrs : ∀ p ∈ t.current_structure.enum.reverse, ∀ i : Nat,
      (p.snd)[i]?.getD false = true →
      t.top_left.fst + i < GRID_WIDTH ∧ t.top_left.snd + p.fst < GRID_HEIGHT := by
    intro p hp i hi
    rw [List.mem_reverse] at hp
    obtain ⟨pi, pv⟩ := p
    have hget := List.mk_mem_enum_iff_getElem?.mp hp
    apply hin
    rw [filled, hget]
    simpa using hi
  obtain ⟨b, hb, hfacts⟩ :=
    at_bottom_rows_spec hg t.top_left.fst t.top_left.snd
      t.current_structure.enum.reverse [] hrs
  refine ⟨b, hb, ?_⟩
  intro hbf x y hfill hmax
  rcases hcs : t.current_structure[y]? with _ | row
  · rw [filled, hcs] at hfill
    simp at hfill
  · have hrowf : row[x]?.getD false = true := by
      rw [filled, hcs] at hfill
      simpa using hfill
    have hmax' : ∀ y' : Nat, y < y' →
        (t.current_structure[y']?.getD [])[x]?.getD false = false := by
      intro y' hy'
      have := hmax y' hy'
      rw [filled] at this
      exact this
    have hfind := find_enumFrom_reverse x t.current_structure 0 y row hcs hrowf hmax'
    have henum : t.current_structure.enum = t.current_structure.enumFrom 0 := rfl
    have := hfacts hbf x (by rfl) y row (by
      rw [henum]
      have e : (0 : Nat) + y = y := by omega
      rw [e] at hfind
      exact hfind)
    exact this

theorem blocked_left_spec {g : Grid} (hg : g.WF) (t : ControlledTetromino)
    (hrows : ∀ j row, t.current_structure[j]? = some row →
      ∃ i : Nat, row[i]?.getD false = true ∧ t.top_left.fst + i < GRID_WIDTH ∧
        t.top_left.snd + j < GRID_HEIGHT) :
    ∃ b, g.is_tetromino_blocked_left t = some b ∧
      (b = false → ∀ j row, t.current_structure[j]? = some row →
        rowLeft t.top_left.fst row ≠ 0 ∧
        g.cell (rowLeft t.top_left.fst row - 1) (t.top_left.snd + j) = false) := by
  obtain ⟨b, hb, hfacts⟩ :=
    blocked_left_rows_spec hg t.top_left.fst t.top_left.snd t.current_structure 0 (by
      intro j row hj
      obtain ⟨i, h1, h2, h3⟩ := hrows j row hj
      refine ⟨i, h1, h2, ?_⟩
      have e : (0 : Nat) + j = j := by omega
      rw [e]
      exact h3)
  refine ⟨b, hb, ?_⟩
  intro hbf j row hj
  have := hfacts hbf j row hj
  have e : (0 : Nat) + j = j := by omega
  rw [e] at this
  exact this

theorem blocked_right_spec {g : Grid} (hg : g.WF) (t : ControlledTetromino)
    (hrows : ∀ j row, t.current_structure[j]? = some row →
      t.top_left.snd + j < GRID_HEIGHT) :
    ∃ b, g.is_tetromino_blocked_right t = some b ∧
      (b = false → ∀ j row, t.current_structure[j]? = some row →
        rowRight row + t.top_left.fst ≠ GRID_WIDTH - 1 ∧
        (rowRight row + t.top_left.fst < GRID_WIDTH - 1 →
          g.cell (rowRight row + t.top_left.fst + 1) (t.top_left.snd + j) = false)) := by
  obtain ⟨b, hb, hfacts⟩ :=
    blocked_right_rows_spec hg t.top_left.fst t.top_left.snd t.current_structure 0 (by
      intro j row hj
      have := hrows j row hj
      have e : (0 : Nat) + j = j := by omega
      rw [e]
      exact this)
  refine ⟨b, hb, ?_⟩
  intro hbf j row hj
  have := hfacts hbf j row hj
  have e : (0 : Nat) + j = j := by omega
  rw [e] at this
  exact this

/-! ## Shape facts about the piece catalog -/

/-- Every row of the matrix has a filled cell. -/
def rowsFilledB (s : List (List Bool)) : Bool :=
  s.all (fun row => row.any (fun c => c))

/-- The filled cells of a row form one contiguous run. -/
def rowContigB (row : List Bool) : Bool :=
  (List.range row.length).all (fun j =>
    (List.range row.length).all (fun i =>
      (List.range row.length).all (fun k =>
        !(decide (i ≤ j) && decide (j ≤ k) &&
          row[i]?.getD false && row[k]?.getD false) || row[j]?.getD false)))

/-- Largest row width of the matrix. -/
def maxWidth (s : List (List Bool)) : Nat :=
  (s.map List.length).foldr Nat.max 0

/-- The filled cells of every column form one contiguous run. -/
def colContigB (s : List (List Bool)) : Bool :=
  (List.range (maxWidth s)).all (fun x =>
    (List.range s.length).all (fun j =>
      (List.range s.length).all (fun i =>
        (List.range s.length).all (fun k =>
          !(decide (i ≤ j) && decide (j ≤ k) &&
            ((s[i]?.getD [])[x]?.getD false) && ((s[k]?.getD [])[x]?.getD false)) ||
            ((s[j]?.getD [])[x]?.getD false)))))

/-- Some row has its leftmost column filled. -/
def col0B (s : List (List Bool)) : Bool :=
  s.any (fun row => row[0]?.getD false)

/-- The shape invariants every catalog rotation matrix satisfies. -/
def shapeOkB (m : List (List Bool)) : Bool :=
  rowsFilledB m && m.all rowContigB && colContigB m && col0B m

theorem catalog_shapeOk : ∀ ty, (structure_with_rotations ty).all shapeOkB = true := by
  intro ty
  cases ty <;> decide

/-- A piece built from the catalog with a valid rotation index. -/
def Catalog (t : ControlledTetromino) : Prop :=
  ∃ ty, t.«structure» = structure_with_rotations ty ∧
    t.rotation < (structure_with_rotations ty).length

theorem catalog_current_shapeOk {t : ControlledTetromino} (hc : Catalog t) :
    shapeOkB t.current_structure = true := by
  obtain ⟨ty, hs, hr⟩ := hc
  have hall := catalog_shapeOk ty
  rw [List.all_eq_true] at hall
  apply hall
  rw [ControlledTetromino.current_structure, hs]
  rw [List.getElem?_eq_getElem hr]
  exact List.getElem_mem hr

theorem bool_imp {A B : Bool} (h : (!A || B) = true) (ha : A = true) : B = true := by
  rcases hB : B with _ | _
  · rw [ha, hB] at h
    simp at h
  · rfl

theorem rowsFilled_of {s : List (List Bool)} (h : rowsFilledB s = true) :
    ∀ (j : Nat) (row : List Bool), s[j]? = some row →
      ∃ i : Nat, row[i]?.getD false = true := by
  intro j row hj
  rw [rowsFilledB, List.all_eq_true] at h
  have hmem : row ∈ s := by
    have hjl : j < s.length := by
      by_contra hge
      push_neg at hge
      rw [List.getElem?_eq_none hge] at hj
      simp at hj
    have := List.getElem?_eq_getElem hjl
    rw [this] at hj
    have he : s[j] = row := Option.some.inj hj
    rw [← he]
    exact List.getElem_mem hjl
  have hany := h row hmem
  rw [List.any_eq_true] at hany
  obtain ⟨c, hcm, hct⟩ := hany
  obtain ⟨i, hil, hie⟩ := List.getElem_of_mem hcm
  refine ⟨i, ?_⟩
  rw [List.getElem?_eq_getElem hil, hie]
  simpa using hct

theorem rowContig_of {row : List Bool} (h : rowContigB row = true) :
    ∀ i j k : Nat, i ≤ j → j ≤ k →
      row[i]?.getD false = true → row[k]?.getD false = true →
      row[j]?.getD false = true := by
  intro i j k hij hjk hi hk
  have hkl : k < row.length := by
    by_contra hge
    push_neg at hge
    rw [List.getElem?_eq_none hge] at hk
    simp at hk
  have hil : i < row.length := by omega
  have hjl : j < row.length := by omega
  rw [rowContigB, List.all_eq_true] at h
  have h1 := h j (List.mem_range.mpr hjl)
  rw [List.all_eq_true] at h1
  have h2 := h1 i (List.mem_range.mpr hil)
  rw [List.all_eq_true] at h2
  have h3 := h2 k (List.mem_range.mpr hkl)
  exact bool_imp h3 (by simp [hij, hjk, hi, hk])

theorem le_foldr_max {n : Nat} {l : List Nat} (h : n ∈ l) : n ≤ l.foldr Nat.max 0 := by
  induction l with
  | nil => simp at h
  | cons w ws ih =>
      rcases List.mem_cons.mp h with rfl | h'
      · exact Nat.le_max_left _ _
      · exact le_trans (ih h') (Nat.le_max_right _ _)

theorem colContig_of {s : List (List Bool)} (h : colContigB s = true) :
    ∀ x i j k : Nat, i ≤ j → j ≤ k →
      (s[i]?.getD [])[x]?.getD false = true →
      (s[k]?.getD [])[x]?.getD false = true →
      (s[j]?.getD [])[x]?.getD false = true := by
  intro x i j k hij hjk hi hk
  have hkl : k < s.length := by
    by_contra hge
    push_neg at hge
    rw [List.getElem?_eq_none hge] at hk
    simp at hk
  have hil : i < s.length := by omega
  have hjl : j < s.length := by omega
  have hxw : x < maxWidth s := by
    have hrow : s[i]? = some s[i] := List.getElem?_eq_getElem hil
    rw [hrow] at hi
    simp only [Option.getD_some] at hi
    have hxl : x < s[i].length := by
      by_contra hge
      push_neg at hge
      rw [List.getElem?_eq_none hge] at hi
      simp at hi
    have hmem : s[i].length ∈ s.map List.length := by
      rw [List.mem_map]
      exact ⟨s[i], List.getElem_mem hil, rfl⟩
    have : s[i].length ≤ maxWidth s := le_foldr_max hmem
    omega
  rw [colContigB, List.all_eq_true] at h
  have h1 := h x (List.mem_range.mpr hxw)
  rw [List.all_eq_true] at h1
  have h2 := h1 j (List.mem_range.mpr hjl)
  rw [List.all_eq_true] at h2
  have h3 := h2 i (List.mem_range.mpr hil)
  rw [List.all_eq_true] at h3
  have h4 := h3 k (List.mem_range.mpr hkl)
  exact bool_imp h4 (by simp [hij, hjk, hi, hk])

theorem col0_of {s : List (List Bool)} (h : col0B s = true) :
    ∃ (j : Nat) (row : List Bool), s[j]? = some row ∧ row[0]?.getD false = true := by
  rw [col0B, List.any_eq_true] at h
  obtain ⟨row, hmem, hfill⟩ := h
  obtain ⟨j, hjl, hje⟩ := List.getElem_of_mem hmem
  exact ⟨j, row, by rw [List.getElem?_eq_getElem hjl, hje], by simpa using hfill⟩

theorem shapeOk_parts {m : List (List Bool)} (h : shapeOkB m = true) :
    rowsFilledB m = true ∧ m.all rowContigB = true ∧
    colContigB m = true ∧ col0B m = true := by
  rw [shapeOkB] at h
  simp only [Bool.and_eq_true] at h
  tauto

/-! ## Move legality preservation -/

theorem filled_row_iff {cs : List (List Bool)} {row : List Bool} {x y : Nat}
    (hj : cs[y]? = some row) : filled cs x y = row[x]?.getD false := by
  rw [filled, hj]
  rfl

theorem mem_of_getElem?_some {cs : List (List Bool)} {row : List Bool} {y : Nat}
    (hj : cs[y]? = some row) : row ∈ cs := by
  have hyl : y < cs.length := by
    by_contra hge
    push_neg at hge
    rw [List.getElem?_eq_none hge] at hj
    simp at hj
  rw [List.getElem?_eq_getElem hyl] at hj
  have := Option.some.inj hj
  rw [← this]
  exact List.getElem_mem hyl

theorem move_left_open {L : Grid} {t : ControlledTetromino} (hL : L.WF)
    (hc : Catalog t) (hopen : OpenSpec L t)
    (hbl : (L.set_tetromino t).is_tetromino_blocked_left t = some false) :
    1 ≤ t.top_left.fst ∧
    OpenSpec L { t with top_left := (t.top_left.fst - 1, t.top_left.snd) } := by
  obtain ⟨hRF, hRC, hCC, hC0⟩ := shapeOk_parts (catalog_current_shapeOk hc)
  have hgWF : (L.set_tetromino t).WF := set_tetromino_values_WF hL t true
  have hrows : ∀ j row, t.current_structure[j]? = some row →
      ∃ i : Nat, row[i]?.getD false = true ∧ t.top_left.fst + i < GRID_WIDTH ∧
        t.top_left.snd + j < GRID_HEIGHT := by
    intro j row hj
    obtain ⟨i, hi⟩ := rowsFilled_of hRF j row hj
    have hf : filled t.current_structure i j = true := by
      rw [filled_row_iff hj]
      exact hi
    have := hopen i j hf
    exact ⟨i, hi, this.1, this.2.1⟩
  obtain ⟨b, hb, hfacts⟩ := blocked_left_spec hgWF t hrows
  rw [hb] at hbl
  have hbf : b = false := Option.some.inj hbl
  subst hbf
  have hfx := hfacts rfl
  have htlx : 1 ≤ t.top_left.fst := by
    obtain ⟨j0, row0, hj0, h00⟩ := col0_of hC0
    have hff0 : firstFilled row0 = some 0 := firstFilled_zero h00
    have hrl : rowLeft t.top_left.fst row0 = 0 + t.top_left.fst := by
      rw [rowLeft, hff0]
    have := (hfx j0 row0 hj0).1
    rw [hrl] at this
    omega
  refine ⟨htlx, ?_⟩
  intro x y hf
  have hf' : filled t.current_structure x y = true := hf
  rcases hj : t.current_structure[y]? with _ | row
  · rw [filled, hj] at hf'
    simp at hf'
  · have hfrow : row[x]?.getD false = true := by
      rw [filled_row_iff hj] at hf'
      exact hf'
    have hbounds := hopen x y hf'
    have hgoalcs :
        ({ t with top_left := (t.top_left.fst - 1, t.top_left.snd)} :
          ControlledTetromino).current_structure = t.current_structure := rfl
    simp only
    by_cases hprev : x ≠ 0 ∧ filled t.current_structure (x - 1) y = true
    · have := hopen (x - 1) y hprev.2
      refine ⟨by omega, by omega, ?_⟩
      have e : t.top_left.fst - 1 + x = t.top_left.fst + (x - 1) := by omega
      rw [e]
      exact this.2.2
    · have hfirst : firstFilled row = some x := by
        by_cases hx0 : x = 0
        · subst hx0
          exact firstFilled_zero hfrow
        · have hnof : filled t.current_structure (x - 1) y = false := by
            rcases hv : filled t.current_structure (x - 1) y with _ | _
            · rfl
            · exact absurd ⟨hx0, hv⟩ hprev
          rcases hff : firstFilled row with _ | i0
          · have := firstFilled_none row hff x
            rw [this] at hfrow
            simp at hfrow
          · obtain ⟨hf0, hmin⟩ := firstFilled_some row i0 hff
            have hle : i0 ≤ x := by
              by_contra hgt
              push_neg at hgt
              have := hmin x hgt
              rw [this] at hfrow
              simp at hfrow
            rcases Nat.lt_or_ge i0 x with hlt | hge
            · exfalso
              have hcontig := rowContig_of
                (List.all_eq_true.mp hRC row (mem_of_getElem?_some hj))
                i0 (x - 1) x (by omega) (by omega) hf0 hfrow
              rw [filled_row_iff hj] at hnof
              rw [hnof] at hcontig
              simp at hcontig
            · have hix : i0 = x := by omega
              subst hix
              rfl
      have hrl : rowLeft t.top_left.fst row = x + t.top_left.fst := by
        rw [rowLeft, hfirst]
      have := hfx y row hj
      rw [hrl] at this
      refine ⟨by omega, by omega, ?_⟩
      have e : t.top_left.fst - 1 + x = x + t.top_left.fst - 1 := by omega
      rw [e]
      exact cell_false_of_stamped hL this.2

theorem move_right_open {L : Grid} {t : ControlledTetromino} (hL : L.WF)
    (hc : Catalog t) (hopen : OpenSpec L t)
    (hbr : (L.set_tetromino t).is_tetromino_blocked_right t = some false) :
    OpenSpec L { t with top_left := (t.top_left.fst + 1, t.top_left.snd) } := by
  obtain ⟨hRF, hRC, hCC, hC0⟩ := shapeOk_parts (catalog_current_shapeOk hc)
  have hgWF : (L.set_tetromino t).WF := set_tetromino_values_WF hL t true
  have hrows : ∀ j row, t.current_structure[j]? = some row →
      t.top_left.snd + j < GRID_HEIGHT := by
    intro j row hj
    obtain ⟨i, hi⟩ := rowsFilled_of hRF j row hj
    have hf : filled t.current_structure i j = true := by
      rw [filled_row_iff hj]; exact hi
    exact (hopen i j hf).2.1
  obtain ⟨b, hb, hfacts⟩ := blocked_right_spec hgWF t hrows
  rw [hb] at hbr
  have hbf : b = false := Option.some.inj hbr
  subst hbf
  have hfx := hfacts rfl
  intro x y hf
  have hf' : filled t.current_structure x y = true := hf
  rcases hj : t.current_structure[y]? with _ | row
  · rw [filled, hj] at hf'
    simp at hf'
  · have hfrow : row[x]?.getD false = true := by
      rw [filled_row_iff hj] at hf'
      exact hf'
    have hbounds := hopen x y hf'
    simp only
    by_cases hnext : filled t.current_structure (x + 1) y = true
    · have := hopen (x + 1) y hnext
      refine ⟨by omega, by omega, ?_⟩
      have e : t.top_left.fst + 1 + x = t.top_left.fst + (x + 1) := by omega
      rw [e]
      exact this.2.2
    · have hnof : row[x + 1]?.getD false = false := by
        rcases hv : row[x + 1]?.getD false with _ | _
        · rfl
        · exact absurd (by rw [filled_row_iff hj]; exact hv) hnext
      obtain ⟨hrrf, hrrmax⟩ := rowRight_filled_le hfrow
      have hrr : rowRight row = x := by
        rcases Nat.lt_trichotomy (rowRight row) x with hlt | heq | hgt
        · exfalso
          have := hrrmax x hlt
          rw [this] at hfrow
          simp at hfrow
        · exact heq
        · exfalso
          rcases Nat.lt_or_ge (x + 1) (rowRight row) with h1 | h1
          · have hcontig := rowContig_of
              (List.all_eq_true.mp hRC row (mem_of_getElem?_some hj))
              x (x + 1) (rowRight row) (by omega) (by omega) hfrow hrrf
            rw [hnof] at hcontig
            simp at hcontig
          · have : rowRight row = x + 1 := by omega
            rw [this] at hrrf
            rw [hnof] at hrrf
            simp at hrrf
    
      have hfy := hfx y row hj
      rw [hrr] at hfy
      have hxb : x + t.top_left.fst < GRID_WIDTH := by
        have := hbounds.1
        omega
      have hlt9 : x + t.top_left.fst < GRID_WIDTH - 1 := by
        have hGW : GRID_WIDTH = 10 := rfl
        have := hfy.1
        omega
      have hfree := hfy.2 hlt9
      refine ⟨by have hGW : GRID_WIDTH = 10 := rfl; omega, by omega, ?_⟩
      have e : t.top_left.fst + 1 + x = x + t.top_left.fst + 1 := by omega
      rw [e]
      exact cell_false_of_stamped hL hfree

theorem gravity_down_open {L : Grid} {t : ControlledTetromino} (hL : L.WF)
    (hc : Catalog t) (hopen : OpenSpec L t)
    (hab : (L.set_tetromino t).is_tetromino_at_bottom t = some false) :
    OpenSpec L { t with top_left := (t.top_left.fst, t.top_left.snd + 1) } := by
  obtain ⟨hRF, hRC, hCC, hC0⟩ := shapeOk_parts (catalog_current_shapeOk hc)
  have hgWF : (L.set_tetromino t).WF := set_tetromino_values_WF hL t true
  have hin : ∀ x y : Nat, filled t.current_structure x y = true →
      t.top_left.fst + x < GRID_WIDTH ∧ t.top_left.snd + y < GRID_HEIGHT := by
    intro x y hf
    exact ⟨(hopen x y hf).1, (hopen x y hf).2.1⟩
  obtain ⟨b, hb, hfacts⟩ := at_bottom_spec hgWF t hin
  rw [hb] at hab
  have hbf : b = false := Option.some.inj hab
  subst hbf
  have hfx := hfacts rfl
  intro x y hf
  have hf' : filled t.current_structure x y = true := hf
  have hbounds := hopen x y hf'
  simp only
  by_cases hbelow : filled t.current_structure x (y + 1) = true
  · have := hopen x (y + 1) hbelow
    refine ⟨by omega, by omega, ?_⟩
    have e : t.top_left.snd + 1 + y = t.top_left.snd + (y + 1) := by omega
    rw [e]
    exact this.2.2
  · have hmax : ∀ y' : Nat, y < y' → filled t.current_structure x y' = false := by
      intro y' hy'
      rcases hv : filled t.current_structure x y' with _ | _
      · rfl
      · exfalso
        apply hbelow
        have hcc := colContig_of hCC x y (y + 1) y' (by omega) (by omega)
        rw [filled] at hf' hv ⊢
        exact hcc hf' hv
    have := hfx x y hf' hmax
    have hGH : GRID_HEIGHT = 16 := rfl
    refine ⟨by omega, by omega, ?_⟩
    have e : t.top_left.snd + 1 + y = t.top_left.snd + y + 1 := by omega
    rw [e]
    exact cell_false_of_stamped hL this.2

/-- The same step on the bare locked grid (used by the hard-drop descent,
which probes `is_at_bottom` on the unstamped board). -/
theorem gravity_down_open_bare {L : Grid} {t : ControlledTetromino} (hL : L.WF)
    (hc : Catalog t) (hopen : OpenSpec L t)
    (hab : L.is_tetromino_at_bottom t = some false) :
    OpenSpec L { t with top_left := (t.top_left.fst, t.top_left.snd + 1) } := by
  obtain ⟨hRF, hRC, hCC, hC0⟩ := shapeOk_parts (catalog_current_shapeOk hc)
  have hin : ∀ x y : Nat, filled t.current_structure x y = true →
      t.top_left.fst + x < GRID_WIDTH ∧ t.top_left.snd + y < GRID_HEIGHT := by
    intro x y hf
    exact ⟨(hopen x y hf).1, (hopen x y hf).2.1⟩
  obtain ⟨b, hb, hfacts⟩ := at_bottom_spec hL t hin
  rw [hb] at hab
  have hbf : b = false := Option.some.inj hab
  subst hbf
  have hfx := hfacts rfl
  intro x y hf
  have hf' : filled t.current_structure x y = true := hf
  have hbounds := hopen x y hf'
  simp only
  by_cases hbelow : filled t.current_structure x (y + 1) = true
  · have := hopen x (y + 1) hbelow
    refine ⟨by omega, by omega, ?_⟩
    have e : t.top_left.snd + 1 + y = t.top_left.snd + (y + 1) := by omega
    rw [e]
    exact this.2.2
  · have hmax : ∀ y' : Nat, y < y' → filled t.current_structure x y' = false := by
      intro y' hy'
      rcases hv : filled t.current_structure x y' with _ | _
      · rfl
      · exfalso
        apply hbelow
        have hcc := colContig_of hCC x y (y + 1) y' (by omega) (by omega)
        rw [filled] at hf' hv ⊢
        exact hcc hf' hv
    have := hfx x y hf' hmax
    have hGH : GRID_HEIGHT = 16 := rfl
    refine ⟨by omega, by omega, ?_⟩
    have e : t.top_left.snd + 1 + y = t.top_left.snd + y + 1 := by omega
    rw [e]
    exact this.2

/-! ## The stamping invariant and its preservation by every control path -/

/-- Board decomposition: the visible grid `g` is the locked board `L` with
the active piece `t` stamped on top, the piece is from the catalog, and its
space is open on `L`. -/
def Stamped (L g : Grid) (t : ControlledTetromino) : Prop :=
  L.WF ∧ Catalog t ∧ OpenSpec L t ∧ g = L.set_tetromino t

theorem Catalog_move {t : ControlledTetromino} (hc : Catalog t) (tl' : Nat × Nat) :
    Catalog { t with top_left := tl' } := by
  obtain ⟨ty, hs, hr⟩ := hc
  exact ⟨ty, hs, hr⟩

theorem Catalog_rotate {t : ControlledTetromino} (hc : Catalog t) :
    Catalog t.rotate := by
  obtain ⟨ty, hs, hr⟩ := hc
  refine ⟨ty, hs, ?_⟩
  rw [ControlledTetromino.rotate]
  simp only [hs]
  exact Nat.mod_lt _ (by omega)

theorem Stamped_rows_hyp {L : Grid} {t : ControlledTetromino}
    (hc : Catalog t) (hopen : OpenSpec L t) :
    ∀ j row, t.current_structure[j]? = some row →
      ∃ i : Nat, row[i]?.getD false = true ∧ t.top_left.fst + i < GRID_WIDTH ∧
        t.top_left.snd + j < GRID_HEIGHT := by
  obtain ⟨hRF, _, _, _⟩ := shapeOk_parts (catalog_current_shapeOk hc)
  intro j row hj
  obtain ⟨i, hi⟩ := rowsFilled_of hRF j row hj
  have hf : filled t.current_structure i j = true := by
    rw [filled_row_iff hj]; exact hi
  exact ⟨i, hi, (hopen i j hf).1, (hopen i j hf).2.1⟩

theorem move_left_step_spec {L g : Grid} {t : ControlledTetromino}
    (h : Stamped L g t) :
    ∃ t', move_left_step g t = some (L.set_tetromino t', t') ∧
      Stamped L (L.set_tetromino t') t' := by
  obtain ⟨hL, hc, hopen, rfl⟩ := h
  have hgWF : (L.set_tetromino t).WF := set_tetromino_values_WF hL t true
  obtain ⟨b, hb, _⟩ := blocked_left_spec hgWF t (Stamped_rows_hyp hc hopen)
  rw [move_left_step, hb]
  simp only [Option.bind_eq_bind, Option.some_bind]
  rcases b with _ | _
  · simp only [Bool.false_eq_true, if_false]
    have ⟨htlx, hopen'⟩ := move_left_open hL hc hopen hb
    rw [unset_set_tetromino hL hopen]
    exact ⟨_, rfl, hL, Catalog_move hc _, hopen', rfl⟩
  · simp only [if_true]
    exact ⟨t, rfl, hL, hc, hopen, rfl⟩

theorem move_right_step_spec {L g : Grid} {t : ControlledTetromino}
    (h : Stamped L g t) :
    ∃ t', move_right_step g t = some (L.set_tetromino t', t') ∧
      Stamped L (L.set_tetromino t') t' := by
  obtain ⟨hL, hc, hopen, rfl⟩ := h
  have hgWF : (L.set_tetromino t).WF := set_tetromino_values_WF hL t true
  have hrows : ∀ j row, t.current_structure[j]? = some row →
      t.top_left.snd + j < GRID_HEIGHT := by
    intro j row hj
    obtain ⟨i, _, _, h3⟩ := Stamped_rows_hyp hc hopen j row hj
    exact h3
  obtain ⟨b, hb, _⟩ := blocked_right_spec hgWF t hrows
  rw [move_right_step, hb]
  simp only [Option.bind_eq_bind, Option.some_bind]
  rcases b with _ | _
  · simp only [Bool.false_eq_true, if_false]
    have hopen' := move_right_open hL hc hopen hb
    rw [unset_set_tetromino hL hopen]
    exact ⟨_, rfl, hL, Catalog_move hc _, hopen', rfl⟩
  · simp only [if_true]
    exact ⟨t, rfl, hL, hc, hopen, rfl⟩

theorem rotate_revert_eq (t : ControlledTetromino) :
    { t.rotate with rotation := t.rotation } = t := rfl

theorem rotate_step_spec {L g : Grid} {t : ControlledTetromino}
    (h : Stamped L g t) :
    ∃ t', rotate_step g t = some (L.set_tetromino t', t') ∧
      Stamped L (L.set_tetromino t') t' := by
  obtain ⟨hL, hc, hopen, rfl⟩ := h
  rw [rotate_step, unset_set_tetromino hL hopen]
  have hsome := is_tetromino_space_open_isSome hL t.rotate
  rcases ho : L.is_tetromino_space_open t.rotate with _ | o
  · rw [ho] at hsome; simp at hsome
  · simp only [Option.bind_eq_bind, Option.some_bind]
    rcases o with _ | _
    · simp only [Bool.false_eq_true, if_false]
      rw [rotate_revert_eq]
      exact ⟨t, rfl, hL, hc, hopen, rfl⟩
    · simp only [if_true]
      have hopen' : OpenSpec L t.rotate := by
        rw [← is_tetromino_space_open_iff hL]
        exact ho
      exact ⟨t.rotate, rfl, hL, Catalog_rotate hc, hopen', rfl⟩

theorem force_to_bottom_spec {L : Grid} (hL : L.WF) :
    ∀ (fuel : Nat) (t : ControlledTetromino), Catalog t → OpenSpec L t →
      ∃ t', L.force_tetromino_to_bottom t fuel = some t' ∧
        Catalog t' ∧ OpenSpec L t' := by
  intro fuel
  induction fuel with
  | zero => intro t hc hopen; exact ⟨t, rfl, hc, hopen⟩
  | succ fuel ih =>
      intro t hc hopen
      have hin : ∀ x y : Nat, filled t.current_structure x y = true →
          t.top_left.fst + x < GRID_WIDTH ∧ t.top_left.snd + y < GRID_HEIGHT :=
        fun x y hf => ⟨(hopen x y hf).1, (hopen x y hf).2.1⟩
      obtain ⟨b, hb, _⟩ := at_bottom_spec hL t hin
      rw [Grid.force_tetromino_to_bottom, hb]
      simp only [Option.bind_eq_bind, Option.some_bind]
      rcases b with _ | _
      · simp only [Bool.false_eq_true, if_false]
        exact ih _ (Catalog_move hc _) (gravity_down_open_bare hL hc hopen hb)
      · simp only [if_true]
        exact ⟨t, rfl, hc, hopen⟩

theorem lock_or_descend_spec {L g1 : Grid} {t1 : ControlledTetromino}
    (h1 : Stamped L g1 t1) (fresh : ControlledTetromino) (hfr : Catalog fresh) :
    ∃ r, lock_or_descend g1 t1 fresh = some r ∧
      ((∃ L' t', r.fst = L'.set_tetromino t' ∧ r.snd.fst = some t' ∧
          Stamped L' r.fst t') ∨
       (r.snd.fst = none ∧ r.snd.snd.fst = TetrisState.GameOver ∧ r.fst.WF)) := by
  obtain ⟨hL1, hc1, hopen1, hg1e⟩ := h1
  have hg1WF : g1.WF := by rw [hg1e]; exact set_tetromino_values_WF hL1 t1 true
  have hin : ∀ x y : Nat, filled t1.current_structure x y = true →
      t1.top_left.fst + x < GRID_WIDTH ∧ t1.top_left.snd + y < GRID_HEIGHT :=
    fun x y hf => ⟨(hopen1 x y hf).1, (hopen1 x y hf).2.1⟩
  obtain ⟨b, hb, _⟩ := at_bottom_spec hg1WF t1 hin
  rw [lock_or_descend, hb]
  simp only [Option.bind_eq_bind, Option.some_bind]
  rcases b with _ | _
  · simp only [Bool.false_eq_true, if_false]
    rw [hg1e, unset_set_tetromino hL1 hopen1]
    have hopen3 := gravity_down_open hL1 hc1 hopen1 (by rw [← hg1e]; exact hb)
    exact ⟨_, rfl, Or.inl ⟨L, _, rfl, rfl, hL1, Catalog_move hc1 _, hopen3, rfl⟩⟩
  · simp only [if_true]
    have hg2WF : (g1.clear_full_grid_rows).fst.WF := clear_full_grid_rows_WF hg1WF
    have hsome := is_tetromino_space_open_isSome hg2WF fresh
    rcases ho : (g1.clear_full_grid_rows).fst.is_tetromino_space_open fresh with _ | o
    · rw [ho] at hsome; simp at hsome
    · simp only [Option.bind_eq_bind, Option.some_bind]
      rcases o with _ | _
      · simp only [Bool.false_eq_true, if_false]
        exact ⟨_, rfl, Or.inr ⟨rfl, rfl, hg2WF⟩⟩
      · simp only [if_true]
        have hopenf : OpenSpec (g1.clear_full_grid_rows).fst fresh := by
          rw [← is_tetromino_space_open_iff hg2WF]
          exact ho
        exact ⟨_, rfl, Or.inl ⟨(g1.clear_full_grid_rows).fst, fresh, rfl, rfl,
          hg2WF, hfr, hopenf, rfl⟩⟩

theorem hard_drop_branch_spec {L g : Grid} {t : ControlledTetromino}
    (h : Stamped L g t) :
    ∃ t0, hard_drop_branch g t = some (L.set_tetromino t0, t0) ∧
      Stamped L (L.set_tetromino t0) t0 := by
  obtain ⟨hL, hc, hopen, rfl⟩ := h
  rw [hard_drop_branch, unset_set_tetromino hL hopen]
  obtain ⟨t0, ht0, hc0, hopen0⟩ := force_to_bottom_spec hL GRID_HEIGHT t hc hopen
  rw [ht0]
  exact ⟨t0, rfl, hL, hc0, hopen0, rfl⟩

theorem timed_step_spec {L g : Grid} {t : ControlledTetromino}
    (h : Stamped L g t) (fresh : ControlledTetromino) (hfr : Catalog fresh)
    (tf sf : Bool) :
    ∃ r, timed_step g t tf sf fresh = some r ∧
      ((∃ L' t', r.fst = L'.set_tetromino t' ∧ r.snd.fst = some t' ∧
          Stamped L' r.fst t') ∨
       (r.snd.fst = none ∧ r.snd.snd.fst = TetrisState.GameOver ∧ r.fst.WF)) := by
  rw [timed_step]
  rcases sf with _ | _
  · simp only [Bool.false_eq_true, if_false, Option.bind_eq_bind, Option.some_bind,
      Bool.or_false]
    rcases tf with _ | _
    · simp only [Bool.false_eq_true, if_false]
      obtain ⟨hL, hc, hopen, hge⟩ := h
      exact ⟨_, rfl, Or.inl ⟨L, t, hge, rfl, hL, hc, hopen, hge⟩⟩
    · simp only [if_true]
      exact lock_or_descend_spec h fresh hfr
  · simp only [if_true, Bool.or_true]
    obtain ⟨t0, ht0, hst0⟩ := hard_drop_branch_spec h
    rw [ht0]
    simp only [Option.bind_eq_bind, Option.some_bind]
    exact lock_or_descend_spec hst0 fresh hfr

/-! ## Claim C2 -/

/-- C2: while a piece is active the board always decomposes as the locked
board plus the active piece's stamped footprint, the footprint adds exactly
the piece's filled-cell count to the occupied-cell count, and every control
path — move left, move right, rotate, and the timed gravity/hard-drop/lock
evaluation — re-establishes this decomposition (with the same locked board
for moves and rotations, and the cleared locked board for locks), so every
unstamp is paired with a restamp, no cells leak, and no locked cells are
erased; when no piece survives (game over) the footprint contribution is
zero. -/
theorem C2_stamping_invariant (L : Grid) (t : ControlledTetromino)
    (hL : L.WF) (hc : Catalog t) (hopen : OpenSpec L t) :
    ((L.set_tetromino t).count = L.count + filled_count t) ∧
    (∃ t', move_left_step (L.set_tetromino t) t = some (L.set_tetromino t', t') ∧
      Stamped L (L.set_tetromino t') t' ∧
      (L.set_tetromino t').count = L.count + filled_count t') ∧
    (∃ t', move_right_step (L.set_tetromino t) t = some (L.set_tetromino t', t') ∧
      Stamped L (L.set_tetromino t') t' ∧
      (L.set_tetromino t').count = L.count + filled_count t') ∧
    (∃ t', rotate_step (L.set_tetromino t) t = some (L.set_tetromino t', t') ∧
      Stamped L (L.set_tetromino t') t' ∧
      (L.set_tetromino t').count = L.count + filled_count t') ∧
    (∀ (fresh : ControlledTetromino) (tf sf : Bool), Catalog fresh →
      ∃ r, timed_step (L.set_tetromino t) t tf sf fresh = some r ∧
        ((∃ L' t', r.fst = L'.set_tetromino t' ∧ r.snd.fst = some t' ∧
            Stamped L' r.fst t' ∧ r.fst.count = L'.count + filled_count t') ∨
         (r.snd.fst = none ∧ r.snd.snd.fst = TetrisState.GameOver ∧ r.fst.WF))) := by
  have h : Stamped L (L.set_tetromino t) t := ⟨hL, hc, hopen, rfl⟩
  refine ⟨stamp_count hL hopen, ?_, ?_, ?_, ?_⟩
  · obtain ⟨t', he, hst⟩ := move_left_step_spec h
    exact ⟨t', he, hst, stamp_count hst.1 hst.2.2.1⟩
  · obtain ⟨t', he, hst⟩ := move_right_step_spec h
    exact ⟨t', he, hst, stamp_count hst.1 hst.2.2.1⟩
  · obtain ⟨t', he, hst⟩ := rotate_step_spec h
    exact ⟨t', he, hst, stamp_count hst.1 hst.2.2.1⟩
  · intro fresh tf sf hfr
    obtain ⟨r, he, hpost⟩ := timed_step_spec h fresh hfr tf sf
    refine ⟨r, he, ?_⟩
    rcases hpost with ⟨L', t', h1, h2, hst⟩ | hright
    · refine Or.inl ⟨L', t', h1, h2, hst, ?_⟩
      have := stamp_count hst.1 hst.2.2.1
      rw [← hst.2.2.2] at this
      exact this
    · exact Or.inr hright

/-- Witness for C2 at the empty board with a freshly spawned `O` piece. -/
theorem C2_stamping_invariant_witness :
    Grid.default.WF ∧ Catalog (new_with_tetromino_type TetrominoType.O) ∧
    OpenSpec Grid.default (new_with_tetromino_type TetrominoType.O) ∧
    (((Grid.default.set_tetromino (new_with_tetromino_type TetrominoType.O)).count =
        Grid.default.count + filled_count (new_with_tetromino_type TetrominoType.O)) ∧
     (∃ t', move_left_step (Grid.default.set_tetromino (new_with_tetromino_type TetrominoType.O))
          (new_with_tetromino_type TetrominoType.O) =
          some (Grid.default.set_tetromino t', t') ∧
        Stamped Grid.default (Grid.default.set_tetromino t') t' ∧
        (Grid.default.set_tetromino t').count = Grid.default.count + filled_count t') ∧
     (∃ t', move_right_step (Grid.default.set_tetromino (new_with_tetromino_type TetrominoType.O))
          (new_with_tetromino_type TetrominoType.O) =
          some (Grid.default.set_tetromino t', t') ∧
        Stamped Grid.default (Grid.default.set_tetromino t') t' ∧
        (Grid.default.set_tetromino t').count = Grid.default.count + filled_count t') ∧
     (∃ t', rotate_step (Grid.default.set_tetromino (new_with_tetromino_type TetrominoType.O))
          (new_with_tetromino_type TetrominoType.O) =
          some (Grid.default.set_tetromino t', t') ∧
        Stamped Grid.default (Grid.default.set_tetromino t') t' ∧
        (Grid.default.set_tetromino t').count = Grid.default.count + filled_count t') ∧
     (∀ (fresh : ControlledTetromino) (tf sf : Bool), Catalog fresh →
       ∃ r, timed_step (Grid.default.set_tetromino (new_with_tetromino_type TetrominoType.O))
            (new_with_tetromino_type TetrominoType.O) tf sf fresh = some r ∧
         ((∃ L' t', r.fst = L'.set_tetromino t' ∧ r.snd.fst = some t' ∧
             Stamped L' r.fst t' ∧ r.fst.count = L'.count + filled_count t') ∨
          (r.snd.fst = none ∧ r.snd.snd.fst = TetrisState.GameOver ∧ r.fst.WF)))) :=
  ⟨by decide, ⟨TetrominoType.O, rfl, by decide⟩,
   (is_tetromino_space_open_iff (by decide) _).mp (by decide),
   C2_stamping_invariant Grid.default (new_with_tetromino_type TetrominoType.O)
     (by decide) ⟨TetrominoType.O, rfl, by decide⟩
     ((is_tetromino_space_open_iff (by decide) _).mp (by decide))⟩

/-! ## Claim C5 -/

/-- C5: when the fall timer fires (or a hard drop forces the evaluation) and
the active piece is at the bottom, the round locks the piece (its stamp
stays in the grid), clears full rows, and then tests the freshly drawn
replacement piece with `is_tetromino_space_open` at its spawn anchor: if the
test fails the round transitions to `GameOver` and the unspawnable piece is
never stamped (the grid stays the cleared grid); if it succeeds the round
stays `InGame` with the new piece stamped.  Moreover, on any well-formed
board whose top two rows are fully occupied, every freshly drawn piece fails
the spawn-anchor test. -/
theorem C5_lock_respawn_gameover (g : Grid) (t fresh : ControlledTetromino)
    (hbot : g.is_tetromino_at_bottom t = some true) :
    (g.clear_full_grid_rows.fst.is_tetromino_space_open fresh = some false →
      timed_step g t true false fresh =
        some (g.clear_full_grid_rows.fst, none, TetrisState.GameOver,
          g.clear_full_grid_rows.snd)) ∧
    (g.clear_full_grid_rows.fst.is_tetromino_space_open fresh = some true →
      timed_step g t true false fresh =
        some (g.clear_full_grid_rows.fst.set_tetromino fresh, some fresh,
          TetrisState.InGame, g.clear_full_grid_rows.snd)) ∧
    (∀ g' : Grid, g'.WF →
      (∀ x : Nat, x < GRID_WIDTH → g'.cell x 0 = true ∧ g'.cell x 1 = true) →
      ∀ ty, g'.is_tetromino_space_open (new_with_tetromino_type ty) = some false) := by
  have hred : timed_step g t true false fresh = lock_or_descend g t fresh := rfl
  refine ⟨?_, ?_, ?_⟩
  · intro ho
    rw [hred, lock_or_descend, hbot]
    simp only [Option.bind_eq_bind, Option.some_bind, if_true]
    rw [ho]
    simp
  · intro ho
    rw [hred, lock_or_descend, hbot]
    simp only [Option.bind_eq_bind, Option.some_bind, if_true]
    rw [ho]
    simp
  · intro g' hWF htop ty
    rw [is_tetromino_space_open_false_iff hWF]
    intro hOpen
    cases ty with
    | I => exact Bool.noConfusion ((htop _ (by decide)).1.symm.trans (hOpen 0 0 (by decide)).2.2)
    | O => exact Bool.noConfusion ((htop _ (by decide)).1.symm.trans (hOpen 0 0 (by decide)).2.2)
    | T => exact Bool.noConfusion ((htop _ (by decide)).1.symm.trans (hOpen 1 0 (by decide)).2.2)
    | S => exact Bool.noConfusion ((htop _ (by decide)).1.symm.trans (hOpen 1 0 (by decide)).2.2)
    | Z => exact Bool.noConfusion ((htop _ (by decide)).1.symm.trans (hOpen 0 0 (by decide)).2.2)
    | J => exact Bool.noConfusion ((htop _ (by decide)).1.symm.trans (hOpen 0 0 (by decide)).2.2)
    | L => exact Bool.noConfusion ((htop _ (by decide)).1.symm.trans (hOpen 2 0 (by decide)).2.2)

/-! ## Claim C6: totality of the core operations -/

/-- All rows of the matrix have the same width. -/
def rectB (s : List (List Bool)) : Bool :=
  s.all (fun row => row.length == maxWidth s)

/-- Every column of the matrix has a filled cell in some row. -/
def colsCovB (s : List (List Bool)) : Bool :=
  (List.range (maxWidth s)).all (fun x => s.any (fun row => row[x]?.getD false))

theorem catalog_shapeOk2 :
    ∀ ty, (structure_with_rotations ty).all (fun m => rectB m && colsCovB m) = true := by
  intro ty
  cases ty <;> decide

theorem rect_of {s : List (List Bool)} (h : rectB s = true) :
    ∀ (j : Nat) (row : List Bool), s[j]? = some row → row.length = maxWidth s := by
  intro j row hj
  rw [rectB, List.all_eq_true] at h
  have := h row (mem_of_getElem?_some hj)
  simpa using this

theorem colsCov_of {s : List (List Bool)} (h : colsCovB s = true) :
    ∀ x : Nat, x < maxWidth s →
      ∃ (j : Nat) (row : List Bool), s[j]? = some row ∧ row[x]?.getD false = true := by
  intro x hx
  rw [colsCovB, List.all_eq_true] at h
  have := h x (List.mem_range.mpr hx)
  rw [List.any_eq_true] at this
  obtain ⟨row, hmem, hfill⟩ := this
  obtain ⟨j, hjl, hje⟩ := List.getElem_of_mem hmem
  exact ⟨j, row, by rw [List.getElem?_eq_getElem hjl, hje], by simpa using hfill⟩

theorem catalog_current_shapeOk2 {t : ControlledTetromino} (hc : Catalog t) :
    rectB t.current_structure = true ∧ colsCovB t.current_structure = true := by
  obtain ⟨ty, hs, hr⟩ := hc
  have hall := catalog_shapeOk2 ty
  rw [List.all_eq_true] at hall
  have := hall t.current_structure (by
    rw [ControlledTetromino.current_structure, hs]
    rw [List.getElem?_eq_getElem hr]
    exact List.getElem_mem hr)
  simpa [Bool.and_eq_true] using this

theorem rs_cells_some {g : Grid} (hg : g.WF) (tlx tly y : Nat) :
    ∀ (row : List Bool) (x0 : Nat),
      (∀ i : Nat, i < row.length → tlx + (x0 + i) < GRID_WIDTH) →
      ∃ b, g.space_open_rs_cells tlx tly y x0 row = some b := by
  intro row
  induction row with
  | nil => intro x0 _; exact ⟨true, rfl⟩
  | cons cell rest ih =>
      intro x0 hbox
      rw [Grid.space_open_rs_cells]
      by_cases hA : cell = true ∧ GRID_WIDTH ≤ tlx + x0
      · rw [if_pos hA]; exact ⟨false, rfl⟩
      · rw [if_neg hA]
        by_cases hB : GRID_HEIGHT ≤ tly + y
        · rw [if_pos hB]; exact ⟨false, rfl⟩
        · rw [if_neg hB]
          have hxW : tlx + x0 < GRID_WIDTH := by
            have := hbox 0 (by simp)
            have e : x0 + 0 = x0 := by omega
            rw [e] at this
            exact this
          have hidx := @Grid.cellIdx_eq g hg (tlx + x0) (tly + y) hxW (by omega)
          rw [hidx]
          simp only [Option.bind_eq_bind, Option.some_bind]
          by_cases hocc : g.cell (tlx + x0) (tly + y) = true
          · rw [hocc]
            exact ⟨false, by simp⟩
          · have hf : g.cell (tlx + x0) (tly + y) = false := by simpa using hocc
            rw [hf]
            simp only [Bool.false_eq_true, if_false]
            apply ih
            intro i hi
            have := hbox (i + 1) (by simpa using hi)
            have e : x0 + (i + 1) = x0 + 1 + i := by omega
            rw [e] at this
            exact this

theorem rs_rows_some {g : Grid} (hg : g.WF) (tlx tly : Nat) :
    ∀ (rows : List (List Bool)) (y0 : Nat),
      (∀ (j : Nat) (row : List Bool), rows[j]? = some row →
        ∀ i : Nat, i < row.length → tlx + i < GRID_WIDTH) →
      ∃ b, g.space_open_rs_rows tlx tly y0 rows = some b := by
  intro rows
  induction rows with
  | nil => intro y0 _; exact ⟨true, rfl⟩
  | cons row rest ih =>
      intro y0 hbox
      obtain ⟨b0, hb0⟩ := rs_cells_some hg tlx tly y0 row 0 (by
        intro i hi
        have := hbox 0 row (by simp) i hi
        have e : (0 : Nat) + i = i := by omega
        rw [e]
        exact this)
      rw [Grid.space_open_rs_rows, hb0]
      simp only [Option.bind_eq_bind, Option.some_bind]
      rcases b0 with _ | _
      · exact ⟨false, by simp⟩
      · simp only [if_true]
        exact ih (y0 + 1) (fun j rowj hj => hbox (j + 1) rowj (by simpa using hj))

/-- C6: under the reachable-input precondition — a catalog piece with a
valid rotation index whose filled cells all lie inside the 10×16 grid — none
of the core operations panics: both revisions of the space-open check, the
two sideways-blocking checks and the bottom check all return a value (no
out-of-bounds grid read), every index written by stamping is in bounds, and
`rotate` keeps the rotation index valid.  (`set`, `clear`,
`set/unset_tetromino` and `clear_full_grid_rows` are total by construction:
their only guard drops out-of-range writes.) -/
theorem C6_no_panic (g : Grid) (t : ControlledTetromino) (hg : g.WF) (hc : Catalog t)
    (hin : ∀ x y : Nat, filled t.current_structure x y = true →
      t.top_left.fst + x < GRID_WIDTH ∧ t.top_left.snd + y < GRID_HEIGHT) :
    (g.is_tetromino_space_open t).isSome = true ∧
    (g.is_tetromino_space_open_rs t).isSome = true ∧
    (g.is_tetromino_blocked_left t).isSome = true ∧
    (g.is_tetromino_blocked_right t).isSome = true ∧
    (g.is_tetromino_at_bottom t).isSome = true ∧
    (∀ x y : Nat, InFoot t x y → x < GRID_WIDTH ∧ y < GRID_HEIGHT) ∧
    t.rotate.rotation < t.«structure».length := by
  obtain ⟨hRF, hRC, hCC, hC0⟩ := shapeOk_parts (catalog_current_shapeOk hc)
  obtain ⟨hrect, hcov⟩ := catalog_current_shapeOk2 hc
  have hbox : ∀ (j : Nat) (row : List Bool), t.current_structure[j]? = some row →
      ∀ i : Nat, i < row.length → t.top_left.fst + i < GRID_WIDTH := by
    intro j row hj i hi
    have hiw : i < maxWidth t.current_structure := by
      rw [← rect_of hrect j row hj]
      exact hi
    obtain ⟨j', row', hj', hf'⟩ := colsCov_of hcov i hiw
    have : filled t.current_structure i j' = true := by
      rw [filled_row_iff hj']
      exact hf'
    exact (hin i j' this).1
  have hrowsL : ∀ j row, t.current_structure[j]? = some row →
      ∃ i : Nat, row[i]?.getD false = true ∧ t.top_left.fst + i < GRID_WIDTH ∧
        t.top_left.snd + j < GRID_HEIGHT := by
    intro j row hj
    obtain ⟨i, hi⟩ := rowsFilled_of hRF j row hj
    have hf : filled t.current_structure i j = true := by
      rw [filled_row_iff hj]; exact hi
    exact ⟨i, hi, (hin i j hf).1, (hin i j hf).2⟩
  refine ⟨is_tetromino_space_open_isSome hg t, ?_, ?_, ?_, ?_, ?_, ?_⟩
  · obtain ⟨b, hb⟩ := rs_rows_some hg t.top_left.fst t.top_left.snd
      t.current_structure 0 hbox
    rw [Grid.is_tetromino_space_open_rs, hb]
    rfl
  · obtain ⟨b, hb, _⟩ := blocked_left_spec hg t hrowsL
    rw [hb]
    rfl
  · obtain ⟨b, hb, _⟩ := blocked_right_spec hg t
      (fun j row hj => ((hrowsL j row hj).choose_spec).2.2)
    rw [hb]
    rfl
  · obtain ⟨b, hb, _⟩ := at_bottom_spec hg t hin
    rw [hb]
    rfl
  · intro x y hf
    obtain ⟨hlea, hleb, hfill⟩ := hf
    have := hin _ _ hfill
    omega
  · obtain ⟨ty, hs, hr⟩ := hc
    rw [ControlledTetromino.rotate]
    simp only [hs]
    exact Nat.mod_lt _ (by omega)

theorem C5_lock_respawn_gameover_witness :
    (Grid.default.set_tetromino
        { new_with_tetromino_type TetrominoType.O with top_left := (4, 14) }).is_tetromino_at_bottom
      { new_with_tetromino_type TetrominoType.O with top_left := (4, 14) } = some true ∧
    timed_step
      (Grid.default.set_tetromino
        { new_with_tetromino_type TetrominoType.O with top_left := (4, 14) })
      { new_with_tetromino_type TetrominoType.O with top_left := (4, 14) }
      true false (new_with_tetromino_type TetrominoType.O) =
    some ((Grid.default.set_tetromino
        { new_with_tetromino_type TetrominoType.O with top_left := (4, 14) }).clear_full_grid_rows.fst.set_tetromino
          (new_with_tetromino_type TetrominoType.O),
      some (new_with_tetromino_type TetrominoType.O), TetrisState.InGame,
      (Grid.default.set_tetromino
        { new_with_tetromino_type TetrominoType.O with top_left := (4, 14) }).clear_full_grid_rows.snd) :=
  ⟨by decide, (C5_lock_respawn_gameover _ _ _ (by decide)).2.1 (by decide)⟩

theorem C6_no_panic_witness :
    Grid.default.WF ∧ Catalog (new_with_tetromino_type TetrominoType.T) ∧
    ((Grid.default.is_tetromino_space_open (new_with_tetromino_type TetrominoType.T)).isSome = true ∧
     (Grid.default.is_tetromino_space_open_rs (new_with_tetromino_type TetrominoType.T)).isSome = true ∧
     (Grid.default.is_tetromino_blocked_left (new_with_tetromino_type TetrominoType.T)).isSome = true ∧
     (Grid.default.is_tetromino_blocked_right (new_with_tetromino_type TetrominoType.T)).isSome = true ∧
     (Grid.default.is_tetromino_at_bottom (new_with_tetromino_type TetrominoType.T)).isSome = true ∧
     (∀ x y : Nat, InFoot (new_with_tetromino_type TetrominoType.T) x y →
        x < GRID_WIDTH ∧ y < GRID_HEIGHT) ∧
     (new_with_tetromino_type TetrominoType.T).rotate.rotation <
       (new_with_tetromino_type TetrominoType.T).«structure».length) :=
  ⟨by decide, ⟨TetrominoType.T, rfl, by decide⟩,
    C6_no_panic Grid.default (new_with_tetromino_type TetrominoType.T) (by decide)
      ⟨TetrominoType.T, rfl, by decide⟩
      (fun x y hf =>
        ⟨((is_tetromino_space_open_iff (g := Grid.default) (by decide) _).mp (by decide) x y hf).1,
         ((is_tetromino_space_open_iff (g := Grid.default) (by decide) _).mp (by decide) x y hf).2.1⟩)⟩

/-! ## Claim C9: focus routing and the gravity frame property -/

theorem timed_board_noop (fr : ControlledTetromino) (b : BoardSt) :
    timed_board false false fr b = some (b, TetrisState.InGame, 0) := by
  rcases b with ⟨bg, bp⟩
  cases bp with
  | none => rfl
  | some t => rfl

/-- C9: input intents route only to the focused board and gravity ignores
focus.  (1) A completed `handle_input` pass (move left / move right / rotate)
preserves the focus marker and leaves the non-focused board — grid and
active piece, hence its anchor and rotation — unchanged.  (2) A completed
`handle_timed_movement` pass whose only trigger is the hard-drop intent
(timers not fired, down pressed) leaves the non-focused board unchanged.
(3) With the down key not pressed, the boards and per-board outcomes of
`handle_timed_movement` do not depend on which board holds focus: the timed
evaluation applies to every board's active piece unconditionally. -/
theorem C9_focus_routing :
    (∀ (l r rot : Bool) (s s' : Session), handle_input_session l r rot s = some s' →
      s'.focus0 = s.focus0 ∧
      (s.focus0 = true → s'.b1 = s.b1) ∧ (s.focus0 = false → s'.b0 = s.b0)) ∧
    (∀ (fr0 fr1 : ControlledTetromino) (s : Session)
        (res : Session × (TetrisState × Nat) × (TetrisState × Nat)),
      handle_timed_session false false true fr0 fr1 s = some res →
      (s.focus0 = true → res.fst.b1 = s.b1) ∧ (s.focus0 = false → res.fst.b0 = s.b0)) ∧
    (∀ (tf0 tf1 : Bool) (fr0 fr1 : ControlledTetromino) (s : Session) (c1 c2 : Bool),
      (handle_timed_session tf0 tf1 false fr0 fr1 { s with focus0 := c1 }).map
        (fun r => (r.fst.b0, r.fst.b1, r.snd)) =
      (handle_timed_session tf0 tf1 false fr0 fr1 { s with focus0 := c2 }).map
        (fun r => (r.fst.b0, r.fst.b1, r.snd))) := by
  refine ⟨?_, ?_, ?_⟩
  · intro l r rot s s' h
    rw [handle_input_session] at h
    by_cases hf : s.focus0 = true
    · rw [if_pos hf] at h
      rcases hib : input_board l r rot s.b0 with _ | bb
      · rw [hib] at h
        simp at h
      · rw [hib] at h
        simp only [Option.bind_eq_bind, Option.some_bind, Option.some.injEq] at h
        subst h
        exact ⟨rfl, fun _ => rfl, fun hc => absurd hf (by simp [hc])⟩
    · rw [if_neg hf] at h
      rcases hib : input_board l r rot s.b1 with _ | bb
      · rw [hib] at h
        simp at h
      · rw [hib] at h
        simp only [Option.bind_eq_bind, Option.some_bind, Option.some.injEq] at h
        subst h
        exact ⟨rfl, fun hc => absurd hc hf, fun _ => rfl⟩
  · intro fr0 fr1 s res h
    rw [handle_timed_session] at h
    by_cases hf : s.focus0 = true
    · rw [hf] at h
      simp only [Bool.and_true, Bool.not_true, Bool.and_false] at h
      rw [timed_board_noop] at h
      rcases h0 : timed_board false true fr0 s.b0 with _ | r0
      · rw [h0] at h
        simp at h
      · rw [h0] at h
        simp only [Option.bind_eq_bind, Option.some_bind, Option.some.injEq] at h
        subst h
        exact ⟨fun _ => rfl, fun hc => absurd hf (by simp [hc])⟩
    · have hf' : s.focus0 = false := by simpa using hf
      rw [hf'] at h
      simp only [Bool.and_false, Bool.not_false, Bool.and_true] at h
      rw [timed_board_noop] at h
      simp only [Option.bind_eq_bind, Option.some_bind] at h
      rcases h1 : timed_board false true fr1 s.b1 with _ | r1
      · rw [h1] at h
        simp at h
      · rw [h1] at h
        simp only [Option.some_bind, Option.some.injEq] at h
        subst h
        exact ⟨fun hc => absurd hc hf, fun _ => rfl⟩
  · intro tf0 tf1 fr0 fr1 s c1 c2
    rw [handle_timed_session, handle_timed_session]
    simp only [Bool.false_and]
    rcases h0 : timed_board tf0 false fr0 s.b0 with _ | r0 <;>
      rcases h1 : timed_board tf1 false fr1 s.b1 with _ | r1 <;>
        simp

/-- A sample board for evaluating the session-level theorems: an `O` piece
at its spawn anchor, stamped into an otherwise empty grid. -/
def sampleBoard : BoardSt :=
  ⟨Grid.default.set_tetromino (new_with_tetromino_type TetrominoType.O),
   some (new_with_tetromino_type TetrominoType.O)⟩

/-- A sample two-board session with board 0 focused. -/
def sampleSession : Session := ⟨sampleBoard, sampleBoard, true⟩

theorem C9_focus_routing_witness :
    (handle_input_session true false false sampleSession =
      some ((handle_input_session true false false sampleSession).getD sampleSession)) ∧
    ((handle_input_session true false false sampleSession).getD sampleSession).focus0 =
      sampleSession.focus0 ∧
    (sampleSession.focus0 = true →
      ((handle_input_session true false false sampleSession).getD sampleSession).b1 =
        sampleSession.b1) ∧
    (handle_timed_session false false true
        (new_with_tetromino_type TetrominoType.O) (new_with_tetromino_type TetrominoType.O)
        sampleSession =
      some ((handle_timed_session false false true
        (new_with_tetromino_type TetrominoType.O) (new_with_tetromino_type TetrominoType.O)
        sampleSession).getD (sampleSession, (TetrisState.InGame, 0), (TetrisState.InGame, 0)))) ∧
    (sampleSession.focus0 = true →
      ((handle_timed_session false false true
        (new_with_tetromino_type TetrominoType.O) (new_with_tetromino_type TetrominoType.O)
        sampleSession).getD
          (sampleSession, (TetrisState.InGame, 0), (TetrisState.InGame, 0))).fst.b1 =
        sampleSession.b1) ∧
    ((handle_timed_session true true false
        (new_with_tetromino_type TetrominoType.O) (new_with_tetromino_type TetrominoType.O)
        { sampleSession with focus0 := true }).map
      (fun r => (r.fst.b0, r.fst.b1, r.snd)) =
     (handle_timed_session true true false
        (new_with_tetromino_type TetrominoType.O) (new_with_tetromino_type TetrominoType.O)
        { sampleSession with focus0 := false }).map
      (fun r => (r.fst.b0, r.fst.b1, r.snd))) :=
  ⟨by decide,
   (C9_focus_routing.1 true false false sampleSession _ (by decide)).1,
   fun h => (C9_focus_routing.1 true false false sampleSession _ (by decide)).2.1 h,
   by decide,
   fun h => (C9_focus_routing.2.1 (new_with_tetromino_type TetrominoType.O)
      (new_with_tetromino_type TetrominoType.O) sampleSession _ (by decide)).1 h,
   C9_focus_routing.2.2 true true (new_with_tetromino_type TetrominoType.O)
      (new_with_tetromino_type TetrominoType.O) sampleSession true false⟩
